import Mathlib

/-!
Verification development for the openzalo channel adapter.

This file gives a shallow embedding, in Lean 4, of the stores and merge
algorithms of the repository (outbound dedupe ledger, inbound debounce
merge, subagent conversation-binding store, message reference cache,
pending group-history buffers) and proves or refutes the frozen claims
about them.

Conventions of the embedding:
  - JavaScript `Map` objects become association lists kept in insertion
    order (`mapGet` finds the first matching key, `mapSet` overwrites an
    existing key in place and otherwise appends, `mapDelete` removes a
    key); all stores in the source only ever call `set` on a key that was
    just deleted or when iteration order is irrelevant, so these
    semantics coincide with the source's.
  - `Date.now()` becomes an explicit `now : Int` argument threaded into
    every operation that reads the clock.
  - Fallible operations returning `null` become `Option`.
  - JS strings are Lean `String`s; `.trim()` and the regular expressions
    of the source are implemented character by character below.
-/

namespace Openzalo

/-- Whitespace as matched by the JavaScript regex class backslash-s and by
`String.prototype.trim`: ASCII blanks, NBSP, the unicode space block, line
and paragraph separators, and the BOM. -/
def jsIsSpace (c : Char) : Bool :=
  c = ' ' || c = '\t' || c = '\n' || c = '\r' ||
  c = (Char.ofNat 0x0b) || c = (Char.ofNat 0x0c) ||
  c = (Char.ofNat 0xa0) || c = (Char.ofNat 0x1680) ||
  (0x2000 ≤ c.toNat && c.toNat ≤ 0x200a) ||
  c = (Char.ofNat 0x2028) || c = (Char.ofNat 0x2029) ||
  c = (Char.ofNat 0x202f) || c = (Char.ofNat 0x205f) ||
  c = (Char.ofNat 0x3000) || c = (Char.ofNat 0xfeff)

/-- Line terminators, the characters the JavaScript regex `.` does not
match. -/
def jsIsLineTerminator (c : Char) : Bool :=
  c = '\n' || c = '\r' || c = (Char.ofNat 0x2028) || c = (Char.ofNat 0x2029)

/-- `trim` on a character list: drop leading and trailing JS whitespace. -/
def jsTrimList (l : List Char) : List Char :=
  ((l.dropWhile jsIsSpace).reverse.dropWhile jsIsSpace).reverse

/-- JavaScript `String.prototype.trim`. -/
def jsTrim (s : String) : String :=
  String.mk (jsTrimList s.data)

/-- Lookup in a JS `Map` modelled as an association list (first match). -/
def mapGet {V : Type} : List (String × V) → String → Option V
  | [], _ => none
  | p :: t, k => if p.1 = k then some p.2 else mapGet t k

/-- `Map.set`: overwrite an existing key in place, else append at the end. -/
def mapSet {V : Type} (m : List (String × V)) (k : String) (v : V) :
    List (String × V) :=
  if m.any (fun p => p.1 = k) then
    m.map (fun p => if p.1 = k then (k, v) else p)
  else
    m ++ [(k, v)]

/-- `Map.delete`: remove a key. -/
def mapDelete {V : Type} : List (String × V) → String → List (String × V)
  | [], _ => []
  | p :: t, k => if p.1 = k then mapDelete t k else p :: mapDelete t k

theorem mapGet_append_right {V : Type} (m : List (String × V)) (k : String)
    (v : V) (h : mapGet m k = none) : mapGet (m ++ [(k, v)]) k = some v := by
  induction m with
  | nil => simp [mapGet]
  | cons p t ih =>
    by_cases hp : p.1 = k
    · simp [mapGet, hp] at h
    · simp only [mapGet, hp, if_false, List.cons_append]
      simp only [mapGet, hp, if_false] at h ⊢
      exact ih h

theorem mapGet_append_single_ne {V : Type} (m : List (String × V))
    (k k' : String) (v : V) (hne : k' ≠ k) :
    mapGet (m ++ [(k, v)]) k' = mapGet m k' := by
  induction m with
  | nil =>
    have : ¬ (k = k') := fun hh => hne hh.symm
    simp [mapGet, this]
  | cons p t ih =>
    by_cases hp : p.1 = k'
    · simp [mapGet, hp]
    · simp only [List.cons_append, mapGet, hp, if_false]
      exact ih

theorem mapGet_replaceMap_ne {V : Type} (m : List (String × V))
    (k k' : String) (v : V) (hne : k' ≠ k) :
    mapGet (m.map (fun p => if p.1 = k then (k, v) else p)) k' =
      mapGet m k' := by
  induction m with
  | nil => rfl
  | cons p t ih =>
    by_cases hp : p.1 = k
    · have hk : ¬ (k = k') := fun hh => hne hh.symm
      have hpk' : ¬ p.1 = k' := by rw [hp]; exact hk
      simp only [List.map_cons, if_pos hp, mapGet, hk, if_false, hpk']
      exact ih
    · by_cases hpk' : p.1 = k'
      · have hk'k : ¬ (k' = k) := hne
        simp [mapGet, hp, hpk', hk'k]
      · simp only [List.map_cons, if_neg hp, mapGet, hpk', if_false]
        exact ih

theorem mapGet_mapSet_self {V : Type} (m : List (String × V)) (k : String)
    (v : V) : mapGet (mapSet m k v) k = some v := by
  unfold mapSet
  by_cases h : m.any (fun p => p.1 = k)
  · simp only [h, if_true]
    induction m with
    | nil => simp at h
    | cons p t ih =>
      by_cases hp : p.1 = k
      · simp [mapGet, hp]
      · have ht : t.any (fun p => p.1 = k) := by
          simp only [List.any_cons, Bool.or_eq_true_iff] at h
          rcases h with h1 | h1
          · exact absurd (by simpa using h1) hp
          · exact h1
        simp only [List.map_cons, if_neg hp, mapGet, hp, if_false]
        exact ih ht
  · simp only [h, if_false]
    have hm : mapGet m k = none := by
      induction m with
      | nil => rfl
      | cons p t ih =>
        simp only [List.any_cons, Bool.or_eq_true_iff, not_or] at h
        have hp : ¬ p.1 = k := by simpa using h.1
        simp only [mapGet, hp, if_false]
        exact ih (by simpa using h.2)
    exact mapGet_append_right m k v hm

theorem mapGet_mapSet_ne {V : Type} (m : List (String × V)) (k k' : String)
    (v : V) (hne : k' ≠ k) : mapGet (mapSet m k v) k' = mapGet m k' := by
  unfold mapSet
  by_cases h : m.any (fun p => p.1 = k)
  · simp only [h, if_true]
    exact mapGet_replaceMap_ne m k k' v hne
  · simp only [h, if_false]
    exact mapGet_append_single_ne m k k' v hne

theorem mapGet_mapDelete_self {V : Type} (m : List (String × V))
    (k : String) : mapGet (mapDelete m k) k = none := by
  induction m with
  | nil => rfl
  | cons p t ih =>
    by_cases hp : p.1 = k
    · simpa [mapDelete, hp] using ih
    · simpa [mapDelete, mapGet, hp] using ih

theorem mapGet_mapDelete_ne {V : Type} (m : List (String × V))
    (k k' : String) (hne : k' ≠ k) :
    mapGet (mapDelete m k) k' = mapGet m k' := by
  induction m with
  | nil => rfl
  | cons p t ih =>
    by_cases hp : p.1 = k
    · have hpk' : ¬ p.1 = k' := by
        rw [hp]; exact fun hh => hne hh.symm
      rw [mapDelete, if_pos hp, ih, mapGet, if_neg hpk']
    · by_cases hpk' : p.1 = k'
      · rw [mapDelete, if_neg hp, mapGet, if_pos hpk', mapGet, if_pos hpk']
      · rw [mapDelete, if_neg hp, mapGet, if_neg hpk', mapGet, if_neg hpk',
          ih]

/-!
Outbound dedupe ledger.

The implementation module (acquireOpenzaloOutboundDedupeSlot and
releaseOpenzaloOutboundDedupeSlot in outbound-dedupe.ts) is not part of
the source snapshot; only its test file is. The ledger below is therefore
modelled from the spec.
-/

/-- Modelled from the spec: the composite fingerprint of one logical
outbound send-intent, composed of accountId, sessionKey, target, kind,
text or content, mediaRef, sequence and idempotencyContext. The spec
requires the fingerprint to be sensitive to the entire content, so the
model keys the ledger on the whole record. -/
structure OpenzaloOutboundDedupeFingerprint where
  accountId : String
  sessionKey : String
  target : String
  kind : String
  text : Option String
  mediaRef : Option String
  sequence : Option Int
  idempotencyContext : Option String
deriving DecidableEq, Repr

/-- Reason an acquire is refused: a ticket for the fingerprint is still
inflight, or the fingerprint is inside the recent-send window. -/
inductive OpenzaloDedupeRejectReason where
  | inflight
  | recent
deriving DecidableEq, Repr

/-- Discriminated result of an acquire: acquired true with a ticket, or
acquired false with a reason. -/
inductive OpenzaloDedupeAcquireOutcome where
  | success (ticket : Nat)
  | failure (reason : OpenzaloDedupeRejectReason)
deriving DecidableEq, Repr

/-- Modelled from the spec: ledger state, one record per fingerprint.
Inflight tickets map a ticket number to its fingerprint; the recent map
holds, per fingerprint, the timestamp at which the recent-send
suppression window expires. -/
structure OpenzaloOutboundDedupeState where
  inflight : List (Nat × OpenzaloOutboundDedupeFingerprint)
  recent : List (OpenzaloOutboundDedupeFingerprint × Int)
  nextTicket : Nat
deriving DecidableEq, Repr

/-- The empty ledger, as produced by resetOpenzaloOutboundDedupeForTests. -/
def emptyDedupeState : OpenzaloOutboundDedupeState :=
  { inflight := [], recent := [], nextTicket := 0 }

/-- Modelled from the spec: the short recent-send suppression window. The
spec fixes no number (only a short TTL); the test timings bound it to
(7900 ms, 17900 ms] and 10 s is used here. -/
def OPENZALO_RECENT_WINDOW_MS : Int := 10000

/-- Lookup of a fingerprint in the recent map (first match). -/
def recentGet (m : List (OpenzaloOutboundDedupeFingerprint × Int))
    (f : OpenzaloOutboundDedupeFingerprint) : Option Int :=
  match m with
  | [] => none
  | p :: t => if p.1 = f then some p.2 else recentGet t f

/-- Remove a fingerprint from the recent map. -/
def recentDelete (m : List (OpenzaloOutboundDedupeFingerprint × Int))
    (f : OpenzaloOutboundDedupeFingerprint) :
    List (OpenzaloOutboundDedupeFingerprint × Int) :=
  match m with
  | [] => []
  | p :: t => if p.1 = f then recentDelete t f else p :: recentDelete t f

/-- Overwrite or append a fingerprint's expiry in the recent map. -/
def recentSet (m : List (OpenzaloOutboundDedupeFingerprint × Int))
    (f : OpenzaloOutboundDedupeFingerprint) (exp : Int) :
    List (OpenzaloOutboundDedupeFingerprint × Int) :=
  if m.any (fun p => p.1 = f) then
    m.map (fun p => if p.1 = f then (f, exp) else p)
  else
    m ++ [(f, exp)]

/-- Modelled from the spec: acquire a slot for a fingerprint at time
`now`. Unlocked leads to a fresh inflight ticket; an inflight fingerprint
is refused with reason inflight; a fingerprint inside its recent window
is refused with reason recent; an elapsed recent record behaves as
unlocked again. -/
def acquireOpenzaloOutboundDedupeSlot
    (f : OpenzaloOutboundDedupeFingerprint) (now : Int)
    (s : OpenzaloOutboundDedupeState) :
    OpenzaloDedupeAcquireOutcome × OpenzaloOutboundDedupeState :=
  if s.inflight.any (fun p => p.2 = f) then
    (.failure .inflight, s)
  else
    match recentGet s.recent f with
    | some exp =>
      if now < exp then
        (.failure .recent, s)
      else
        (.success s.nextTicket,
          { inflight := s.inflight ++ [(s.nextTicket, f)],
            recent := recentDelete s.recent f,
            nextTicket := s.nextTicket + 1 })
    | none =>
      (.success s.nextTicket,
        { inflight := s.inflight ++ [(s.nextTicket, f)],
          recent := recentDelete s.recent f,
          nextTicket := s.nextTicket + 1 })

/-- Modelled from the spec: release a ticket at time `now`. An unknown or
already-released ticket is a no-op; a successful send moves the
fingerprint into the recent window; a failed send forgets it
immediately. -/
def releaseOpenzaloOutboundDedupeSlot (ticket : Nat) (sent : Bool)
    (now : Int) (s : OpenzaloOutboundDedupeState) :
    OpenzaloOutboundDedupeState :=
  match s.inflight.find? (fun p => p.1 = ticket) with
  | none => s
  | some entry =>
    { inflight := s.inflight.filter (fun p => p.1 ≠ ticket),
      recent :=
        if sent then
          recentSet s.recent entry.2 (now + OPENZALO_RECENT_WINDOW_MS)
        else
          s.recent,
      nextTicket := s.nextTicket }

theorem recentGet_recentSet_self
    (m : List (OpenzaloOutboundDedupeFingerprint × Int))
    (f : OpenzaloOutboundDedupeFingerprint) (exp : Int) :
    recentGet (recentSet m f exp) f = some exp := by
  unfold recentSet
  by_cases h : m.any (fun p => p.1 = f)
  · simp only [h, if_true]
    induction m with
    | nil => simp at h
    | cons p t ih =>
      by_cases hp : p.1 = f
      · simp [recentGet, hp]
      · have ht : t.any (fun p => p.1 = f) := by
          simp only [List.any_cons, Bool.or_eq_true_iff] at h
          rcases h with h1 | h1
          · exact absurd (by simpa using h1) hp
          · exact h1
        simp only [List.map_cons, if_neg hp, recentGet, hp, if_false]
        exact ih ht
  · simp only [h, if_false]
    induction m with
    | nil => simp [recentGet]
    | cons p t ih =>
      simp only [List.any_cons, Bool.or_eq_true_iff, not_or] at h
      have hp : ¬ p.1 = f := by simpa using h.1
      simp only [List.cons_append, recentGet, hp, if_false]
      exact ih (by simpa using h.2)

theorem recentGet_recentDelete_self
    (m : List (OpenzaloOutboundDedupeFingerprint × Int))
    (f : OpenzaloOutboundDedupeFingerprint) :
    recentGet (recentDelete m f) f = none := by
  induction m with
  | nil => rfl
  | cons p t ih =>
    by_cases hp : p.1 = f
    · simpa [recentDelete, hp] using ih
    · simpa [recentDelete, recentGet, hp] using ih

/-- C1. While a ticket for fingerprint `f` is still inflight (acquired
and not yet released), a second acquire of `f` returns acquired false
with reason inflight and leaves the ledger unchanged, so no second
ticket is created. -/
theorem second_acquire_while_inflight_is_rejected
    (f : OpenzaloOutboundDedupeFingerprint) (now : Int)
    (s : OpenzaloOutboundDedupeState) (t : Nat)
    (h : (t, f) ∈ s.inflight) :
    acquireOpenzaloOutboundDedupeSlot f now s = (.failure .inflight, s) := by
  have hany : s.inflight.any (fun p => p.2 = f) := by
    simp only [List.any_eq_true]
    exact ⟨(t, f), h, by simp⟩
  unfold acquireOpenzaloOutboundDedupeSlot
  simp [hany]

theorem acquire_success_inv (f : OpenzaloOutboundDedupeFingerprint)
    (now : Int) (s : OpenzaloOutboundDedupeState) (tk : Nat)
    (s' : OpenzaloOutboundDedupeState)
    (h : acquireOpenzaloOutboundDedupeSlot f now s = (.success tk, s')) :
    s.inflight.any (fun p => p.2 = f) = false ∧ tk = s.nextTicket ∧
      s' = { inflight := s.inflight ++ [(s.nextTicket, f)],
             recent := recentDelete s.recent f,
             nextTicket := s.nextTicket + 1 } := by
  unfold acquireOpenzaloOutboundDedupeSlot at h
  by_cases hany : s.inflight.any (fun p => p.2 = f)
  · simp [hany] at h
  · refine ⟨Bool.eq_false_iff.mpr hany, ?_⟩
    simp only [hany, Bool.false_eq_true, if_false] at h
    cases hr : recentGet s.recent f with
    | none =>
      rw [hr] at h
      have h1 := congrArg Prod.fst h
      have h2 := congrArg Prod.snd h
      simp at h1 h2
      exact ⟨h1.symm, h2.symm⟩
    | some exp =>
      rw [hr] at h
      by_cases hlt : now < exp
      · simp [hlt] at h
      · simp only [hlt, if_false] at h
        have h1 := congrArg Prod.fst h
        have h2 := congrArg Prod.snd h
        simp at h1 h2
        exact ⟨h1.symm, h2.symm⟩

theorem find?_ticket_append (l : List (Nat × OpenzaloOutboundDedupeFingerprint))
    (tk : Nat) (f : OpenzaloOutboundDedupeFingerprint)
    (h : ∀ p ∈ l, p.1 ≠ tk) :
    (l ++ [(tk, f)]).find? (fun p => p.1 = tk) = some (tk, f) := by
  induction l with
  | nil => simp [List.find?]
  | cons p t ih =>
    have hp : ¬ p.1 = tk := h p (by simp)
    rw [List.cons_append, List.find?_cons_of_neg _ (by simpa using hp)]
    exact ih (fun q hq => h q (by simp [hq]))

theorem filter_ticket_append (l : List (Nat × OpenzaloOutboundDedupeFingerprint))
    (tk : Nat) (f : OpenzaloOutboundDedupeFingerprint)
    (h : ∀ p ∈ l, p.1 ≠ tk) :
    (l ++ [(tk, f)]).filter (fun p => p.1 ≠ tk) = l := by
  induction l with
  | nil => simp
  | cons p t ih =>
    have hp : p.1 ≠ tk := h p (by simp)
    rw [List.cons_append, List.filter_cons_of_pos (by simpa using hp)]
    rw [ih (fun q hq => h q (by simp [hq]))]

/-- C2. After a successful acquire of fingerprint `f` and a release with
sent true at time `now₁`: an acquire of `f` before `now₁` plus the
recent window is refused with reason recent and changes nothing; an
acquire at or after that expiry succeeds. After a release with sent
false, any acquire of `f` succeeds immediately. The well-formedness
hypothesis says every inflight ticket number is below the ticket
counter, which holds in every reachable ledger state. -/
theorem release_recent_window_semantics
    (f : OpenzaloOutboundDedupeFingerprint) (now₀ now₁ : Int)
    (s₀ s₁ : OpenzaloOutboundDedupeState) (tk : Nat)
    (hwf : ∀ p ∈ s₀.inflight, p.1 < s₀.nextTicket)
    (hacq : acquireOpenzaloOutboundDedupeSlot f now₀ s₀ = (.success tk, s₁)) :
    (∀ now₂, now₂ < now₁ + OPENZALO_RECENT_WINDOW_MS →
      acquireOpenzaloOutboundDedupeSlot f now₂
          (releaseOpenzaloOutboundDedupeSlot tk true now₁ s₁) =
        (.failure .recent,
          releaseOpenzaloOutboundDedupeSlot tk true now₁ s₁)) ∧
    (∀ now₂, now₁ + OPENZALO_RECENT_WINDOW_MS ≤ now₂ →
      (acquireOpenzaloOutboundDedupeSlot f now₂
          (releaseOpenzaloOutboundDedupeSlot tk true now₁ s₁)).1 =
        .success (tk + 1)) ∧
    (∀ now₂,
      (acquireOpenzaloOutboundDedupeSlot f now₂
          (releaseOpenzaloOutboundDedupeSlot tk false now₁ s₁)).1 =
        .success (tk + 1)) := by
  obtain ⟨hany, htk, hs1⟩ := acquire_success_inv f now₀ s₀ tk s₁ hacq
  subst htk
  have hne : ∀ p ∈ s₀.inflight, p.1 ≠ s₀.nextTicket :=
    fun p hp => Nat.ne_of_lt (hwf p hp)
  have hfind : s₁.inflight.find? (fun p => p.1 = s₀.nextTicket) =
      some (s₀.nextTicket, f) := by
    rw [hs1]
    exact find?_ticket_append s₀.inflight s₀.nextTicket f hne
  have hfilter : s₁.inflight.filter (fun p => p.1 ≠ s₀.nextTicket) =
      s₀.inflight := by
    rw [hs1]
    exact filter_ticket_append s₀.inflight s₀.nextTicket f hne
  have hanyF : ∀ (l : List (Nat × OpenzaloOutboundDedupeFingerprint)),
      l = s₀.inflight → l.any (fun p => p.2 = f) = false := by
    intro l hl; rw [hl]; simpa using hany
  have hrelT : releaseOpenzaloOutboundDedupeSlot s₀.nextTicket true now₁ s₁ =
      { inflight := s₀.inflight,
        recent := recentSet (recentDelete s₀.recent f) f
          (now₁ + OPENZALO_RECENT_WINDOW_MS),
        nextTicket := s₀.nextTicket + 1 } := by
    unfold releaseOpenzaloOutboundDedupeSlot
    rw [hfind, hfilter]
    simp [hs1]
  have hrelF : releaseOpenzaloOutboundDedupeSlot s₀.nextTicket false now₁ s₁ =
      { inflight := s₀.inflight,
        recent := recentDelete s₀.recent f,
        nextTicket := s₀.nextTicket + 1 } := by
    unfold releaseOpenzaloOutboundDedupeSlot
    rw [hfind, hfilter]
    simp [hs1]
  refine ⟨?_, ?_, ?_⟩
  · intro now₂ hlt
    rw [hrelT]
    unfold acquireOpenzaloOutboundDedupeSlot
    rw [recentGet_recentSet_self]
    simp [hany, hlt]
  · intro now₂ hge
    rw [hrelT]
    unfold acquireOpenzaloOutboundDedupeSlot
    rw [recentGet_recentSet_self]
    simp [hany, not_lt.mpr hge]
  · intro now₂
    rw [hrelF]
    unfold acquireOpenzaloOutboundDedupeSlot
    rw [recentGet_recentDelete_self]
    simp [hany]

/-- C2 witness: a concrete acquire, release with sent true, and the
three follow-up acquires at times 10500 (recent), 12100 (after the
window) and, after a failed release, immediately. -/
theorem release_recent_window_semantics_witness :
    (∀ p ∈ emptyDedupeState.inflight, p.1 < emptyDedupeState.nextTicket) ∧
    acquireOpenzaloOutboundDedupeSlot
        { accountId := "main", sessionKey := "s1", target := "group:42",
          kind := "media", text := some "caption",
          mediaRef := some "https://example.com/a.jpg",
          sequence := none, idempotencyContext := none } 2000
        emptyDedupeState =
      (.success 0,
        { inflight := [(0,
            { accountId := "main", sessionKey := "s1",
              target := "group:42", kind := "media",
              text := some "caption",
              mediaRef := some "https://example.com/a.jpg",
              sequence := none, idempotencyContext := none })],
          recent := [], nextTicket := 1 }) ∧
    acquireOpenzaloOutboundDedupeSlot
        { accountId := "main", sessionKey := "s1", target := "group:42",
          kind := "media", text := some "caption",
          mediaRef := some "https://example.com/a.jpg",
          sequence := none, idempotencyContext := none } 10500
        (releaseOpenzaloOutboundDedupeSlot 0 true 2100
          { inflight := [(0,
              { accountId := "main", sessionKey := "s1",
                target := "group:42", kind := "media",
                text := some "caption",
                mediaRef := some "https://example.com/a.jpg",
                sequence := none, idempotencyContext := none })],
            recent := [], nextTicket := 1 }) =
      (.failure .recent,
        releaseOpenzaloOutboundDedupeSlot 0 true 2100
          { inflight := [(0,
              { accountId := "main", sessionKey := "s1",
                target := "group:42", kind := "media",
                text := some "caption",
                mediaRef := some "https://example.com/a.jpg",
                sequence := none, idempotencyContext := none })],
            recent := [], nextTicket := 1 }) := by
  have h := release_recent_window_semantics
    { accountId := "main", sessionKey := "s1", target := "group:42",
      kind := "media", text := some "caption",
      mediaRef := some "https://example.com/a.jpg",
      sequence := none, idempotencyContext := none } 2000 2100
    emptyDedupeState
    { inflight := [(0,
        { accountId := "main", sessionKey := "s1", target := "group:42",
          kind := "media", text := some "caption",
          mediaRef := some "https://example.com/a.jpg",
          sequence := none, idempotencyContext := none })],
      recent := [], nextTicket := 1 } 0
    (by intro p hp; simp [emptyDedupeState] at hp)
    (by decide)
  exact ⟨by intro p hp; simp [emptyDedupeState] at hp, by decide,
    h.1 10500 (by decide)⟩

theorem acquire_other_after_released
    (f1 f2 : OpenzaloOutboundDedupeFingerprint) (hne : f1 ≠ f2)
    (now₀ now₁ now₂ : Int) :
    (acquireOpenzaloOutboundDedupeSlot f2 now₂
      (releaseOpenzaloOutboundDedupeSlot 0 true now₁
        (acquireOpenzaloOutboundDedupeSlot f1 now₀
          emptyDedupeState).2)).1 = .success 1 := by
  have h1 : (acquireOpenzaloOutboundDedupeSlot f1 now₀ emptyDedupeState).2 =
      { inflight := [(0, f1)], recent := [], nextTicket := 1 } := rfl
  rw [h1]
  have h2 : releaseOpenzaloOutboundDedupeSlot 0 true now₁
      { inflight := [(0, f1)], recent := [], nextTicket := 1 } =
      { inflight := [],
        recent := [(f1, now₁ + OPENZALO_RECENT_WINDOW_MS)],
        nextTicket := 1 } := rfl
  rw [h2]
  have hr : recentGet [(f1, now₁ + OPENZALO_RECENT_WINDOW_MS)] f2 =
      none := by
    rw [recentGet, if_neg (by simpa using hne)]
    rfl
  unfold acquireOpenzaloOutboundDedupeSlot
  rw [hr]
  simp

/-- C3. Two fingerprints that differ only in their text payload are
distinct, and after the first is acquired from an empty ledger and
released with sent true, an acquire of the second still succeeds. -/
theorem distinct_texts_never_collide (accountId sessionKey target kind :
    String) (mediaRef : Option String) (sequence : Option Int)
    (idempotencyContext : Option String) (t1 t2 : String)
    (hne : t1 ≠ t2) (now₀ now₁ now₂ : Int) :
    ({ accountId := accountId, sessionKey := sessionKey, target := target,
       kind := kind, text := some t1, mediaRef := mediaRef,
       sequence := sequence, idempotencyContext := idempotencyContext } :
        OpenzaloOutboundDedupeFingerprint) ≠
      { accountId := accountId, sessionKey := sessionKey, target := target,
        kind := kind, text := some t2, mediaRef := mediaRef,
        sequence := sequence, idempotencyContext := idempotencyContext } ∧
    (acquireOpenzaloOutboundDedupeSlot
        { accountId := accountId, sessionKey := sessionKey,
          target := target, kind := kind, text := some t2,
          mediaRef := mediaRef, sequence := sequence,
          idempotencyContext := idempotencyContext } now₂
        (releaseOpenzaloOutboundDedupeSlot 0 true now₁
          (acquireOpenzaloOutboundDedupeSlot
            { accountId := accountId, sessionKey := sessionKey,
              target := target, kind := kind, text := some t1,
              mediaRef := mediaRef, sequence := sequence,
              idempotencyContext := idempotencyContext } now₀
            emptyDedupeState).2)).1 = .success 1 := by
  constructor
  · intro hcontra
    exact hne (Option.some.inj
      (congrArg OpenzaloOutboundDedupeFingerprint.text hcontra))
  · exact acquire_other_after_released _ _
      (fun hcontra => hne (Option.some.inj
        (congrArg OpenzaloOutboundDedupeFingerprint.text hcontra)))
      now₀ now₁ now₂

/-- C3 witness: the two texts share a 1500 character prefix and differ
only in the suffix; the second acquire succeeds with ticket 1. -/
theorem distinct_texts_never_collide_witness :
    (String.mk (List.replicate 1500 'a') ++ "::first" ≠
      String.mk (List.replicate 1500 'a') ++ "::second") ∧
    (acquireOpenzaloOutboundDedupeSlot
        { accountId := "main", sessionKey := "s1", target := "user:123",
          kind := "text",
          text := some (String.mk (List.replicate 1500 'a') ++ "::second"),
          mediaRef := none, sequence := none,
          idempotencyContext := none } 5002
        (releaseOpenzaloOutboundDedupeSlot 0 true 5001
          (acquireOpenzaloOutboundDedupeSlot
            { accountId := "main", sessionKey := "s1",
              target := "user:123", kind := "text",
              text := some
                (String.mk (List.replicate 1500 'a') ++ "::first"),
              mediaRef := none, sequence := none,
              idempotencyContext := none } 5000
            emptyDedupeState).2)).1 = .success 1 := by
  have hne : String.mk (List.replicate 1500 'a') ++ "::first" ≠
      String.mk (List.replicate 1500 'a') ++ "::second" := by
    intro h
    have hlen := congrArg String.length h
    rw [String.length_append, String.length_append] at hlen
    have h7 : ("::first" : String).length = 7 := rfl
    have h8 : ("::second" : String).length = 8 := rfl
    rw [h7, h8] at hlen
    omega
  exact ⟨hne,
    (distinct_texts_never_collide "main" "s1" "user:123" "text" none none
      none _ _ hne 5000 5001 5002).2⟩

/-- C1 witness: acquiring a concrete fingerprint puts its ticket
inflight, and the theorem then refuses the duplicate acquire. -/
theorem second_acquire_while_inflight_is_rejected_witness :
    (0, { accountId := "main", sessionKey := "s1", target := "user:123",
          kind := "text", text := some "hello", mediaRef := none,
          sequence := none, idempotencyContext := none }) ∈
      (acquireOpenzaloOutboundDedupeSlot
        { accountId := "main", sessionKey := "s1", target := "user:123",
          kind := "text", text := some "hello", mediaRef := none,
          sequence := none, idempotencyContext := none } 1000
        emptyDedupeState).2.inflight ∧
    acquireOpenzaloOutboundDedupeSlot
      { accountId := "main", sessionKey := "s1", target := "user:123",
        kind := "text", text := some "hello", mediaRef := none,
        sequence := none, idempotencyContext := none } 1005
      (acquireOpenzaloOutboundDedupeSlot
        { accountId := "main", sessionKey := "s1", target := "user:123",
          kind := "text", text := some "hello", mediaRef := none,
          sequence := none, idempotencyContext := none } 1000
        emptyDedupeState).2 =
      (.failure .inflight,
        (acquireOpenzaloOutboundDedupeSlot
          { accountId := "main", sessionKey := "s1", target := "user:123",
            kind := "text", text := some "hello", mediaRef := none,
            sequence := none, idempotencyContext := none } 1000
          emptyDedupeState).2) := by
  refine ⟨by decide, ?_⟩
  exact second_acquire_while_inflight_is_rejected _ 1005 _ 0 (by decide)

/-!
Inbound debounce merge (monitor.ts): dedupeStrings, resolveCombinedText
and combineDebouncedInbound.
-/

/-- Stand-in for the opaque OpenzcaRawPayload JSON value attached to an
inbound message; only carried through, never inspected, by the merge. -/
abbrev OpenzcaRawPayload := String

/-- The normalized inbound message record (types.ts,
OpenzaloInboundMessage). Timestamps are modelled as integers, so the
non-finite double cases of the source are out of the model. -/
structure OpenzaloInboundMessage where
  messageId : String
  msgId : Option String
  cliMsgId : Option String
  threadId : String
  toId : Option String
  dmPeerId : Option String
  senderId : String
  senderName : Option String
  text : String
  timestamp : Int
  isGroup : Bool
  quoteMsgId : Option String
  quoteCliMsgId : Option String
  quoteSender : Option String
  quoteText : Option String
  mentionIds : List String
  mediaPaths : List String
  mediaUrls : List String
  mediaTypes : List String
  raw : OpenzcaRawPayload
deriving DecidableEq, Repr

/-- A buffered debounce entry (monitor.ts, OpenzaloDebounceEntry). -/
structure OpenzaloDebounceEntry where
  message : OpenzaloInboundMessage
deriving DecidableEq, Repr

/-- Loop body of dedupeStrings: `seen` is the JS Set, `out` the output
list; both receive every admitted trimmed string. -/
def dedupeStringsGo (seen out : List String) :
    List String → List String
  | [] => out
  | v :: rest =>
    let trimmed := jsTrim v
    if trimmed = "" then dedupeStringsGo seen out rest
    else if trimmed ∈ seen then dedupeStringsGo seen out rest
    else dedupeStringsGo (seen ++ [trimmed]) (out ++ [trimmed]) rest

/-- monitor.ts dedupeStrings: trim every value, drop empties and exact
repeats, keep first-seen order. -/
def dedupeStrings (values : List String) : List String :=
  dedupeStringsGo [] [] values

/-- The command/mention trigger regex of monitor.ts, anchored at the
start: a slash, a bang, or an at-sign followed by one non-space
character. -/
def isCommandTrigger (s : String) : Bool :=
  match s.data with
  | [] => false
  | c :: rest =>
    c = '/' || c = '!' ||
      (c = '@' && match rest with
        | [] => false
        | d :: _ => !jsIsSpace d)

/-- monitor.ts resolveCombinedText: empty input gives the empty string, a
single text passes through, otherwise the last text wins when it trims
to a command trigger, else all texts are joined with newline. -/
def resolveCombinedText (texts : List String) : String :=
  if texts.length = 0 then ""
  else if texts.length = 1 then (texts.get? 0).getD ""
  else
    let last := (texts.get? (texts.length - 1)).getD ""
    if isCommandTrigger (jsTrim last) then last
    else String.intercalate "\n" texts

/-- JS short-circuit or over possibly-undefined strings: the first truthy
(present and non-empty) operand, else the final fallback string. -/
def jsOrString (a : Option String) (b : String) : String :=
  match a with
  | some s => if s = "" then b else s
  | none => b

/-- The first message whose field selected by `g` is truthy, mapped
through `g` (the find-then-project idiom of combineDebouncedInbound). -/
def findTruthyField (g : OpenzaloInboundMessage → Option String)
    (ms : List OpenzaloInboundMessage) : Option String :=
  match ms.find? (fun m => ((g m).getD "") ≠ "") with
  | some m => g m
  | none => none

/-- monitor.ts combineDebouncedInbound. The source throws on an empty
list (none here) and passes a single entry through; two or more entries
are merged: deduped texts via resolveCombinedText, concatenate-then-
dedupe media and mentions, first truthy identity and quote fields,
maximal timestamp, raw payload of the last entry, remaining fields from
the first entry. -/
def combineDebouncedInbound :
    List OpenzaloDebounceEntry → Option OpenzaloInboundMessage
  | [] => none
  | [e] => some e.message
  | e0 :: e1 :: rest =>
    let first := e0.message
    let messages := (e0 :: e1 :: rest).map OpenzaloDebounceEntry.message
    let text := resolveCombinedText
      (dedupeStrings (messages.map OpenzaloInboundMessage.text))
    let mediaPaths := dedupeStrings
      (messages.flatMap OpenzaloInboundMessage.mediaPaths)
    let mediaUrls := dedupeStrings
      (messages.flatMap OpenzaloInboundMessage.mediaUrls)
    let mediaTypes := dedupeStrings
      (messages.flatMap OpenzaloInboundMessage.mediaTypes)
    let mentionIds := dedupeStrings
      (messages.flatMap OpenzaloInboundMessage.mentionIds)
    let maxTimestamp :=
      ((messages.map OpenzaloInboundMessage.timestamp).max?).getD
        first.timestamp
    let latest := (messages.get? (messages.length - 1)).getD first
    let preferredMsgId := findTruthyField OpenzaloInboundMessage.msgId
      messages
    let preferredCliMsgId := findTruthyField
      OpenzaloInboundMessage.cliMsgId messages
    let messageId := jsOrString preferredMsgId
      (jsOrString preferredCliMsgId first.messageId)
    some
      { messageId := messageId
        msgId := preferredMsgId
        cliMsgId := preferredCliMsgId
        threadId := first.threadId
        toId := first.toId
        dmPeerId := first.dmPeerId
        senderId := first.senderId
        senderName := first.senderName
        text := text
        timestamp := maxTimestamp
        isGroup := first.isGroup
        quoteMsgId := findTruthyField OpenzaloInboundMessage.quoteMsgId
          messages
        quoteCliMsgId := findTruthyField
          OpenzaloInboundMessage.quoteCliMsgId messages
        quoteSender := findTruthyField OpenzaloInboundMessage.quoteSender
          messages
        quoteText := findTruthyField OpenzaloInboundMessage.quoteText
          messages
        mentionIds := mentionIds
        mediaPaths := mediaPaths
        mediaUrls := mediaUrls
        mediaTypes := mediaTypes
        raw := latest.raw }

/-- Spec-side recursion: first-seen deduplication of a list, relative to
an already-seen prefix. -/
def dedupFirstExcluding (seen : List String) :
    List String → List String
  | [] => []
  | x :: rest =>
    if x ∈ seen then dedupFirstExcluding seen rest
    else x :: dedupFirstExcluding (seen ++ [x]) rest

/-- Spec-side (from the claim's words): the unique texts, each trimmed,
empties dropped, exact repeats dropped, in first-seen order. -/
def uniqueInboundTextsSpec (texts : List String) : List String :=
  dedupFirstExcluding [] ((texts.map jsTrim).filter (fun t => t ≠ ""))

/-- Spec-side (from the amended claim's words): the merged text is the
last unique text when it alone matches the command trigger, else all
unique texts joined with newline, empty when there are none. -/
def mergedCombinedTextSpec (texts : List String) : String :=
  match (uniqueInboundTextsSpec texts).getLast? with
  | none => ""
  | some last =>
    if isCommandTrigger (jsTrim last) then last
    else String.intercalate "\n" (uniqueInboundTextsSpec texts)

theorem dedupeStringsGo_eq_spec (l : List String) :
    ∀ acc, dedupeStringsGo acc acc l =
      acc ++ dedupFirstExcluding acc ((l.map jsTrim).filter
        (fun t => t ≠ "")) := by
  induction l with
  | nil => intro acc; simp [dedupeStringsGo, dedupFirstExcluding]
  | cons v rest ih =>
    intro acc
    by_cases he : jsTrim v = ""
    · simp only [dedupeStringsGo, he, if_pos rfl, List.map_cons,
        List.filter_cons]
      rw [ih acc]
      simp [he]
    · by_cases hs : jsTrim v ∈ acc
      · simp only [dedupeStringsGo, List.map_cons, List.filter_cons]
        rw [if_neg he, if_pos hs, ih acc]
        have : (decide ¬jsTrim v = "") = true := by simpa using he
        rw [this]
        simp [dedupFirstExcluding, hs]
      · simp only [dedupeStringsGo, List.map_cons, List.filter_cons]
        rw [if_neg he, if_neg hs, ih (acc ++ [jsTrim v])]
        have : (decide ¬jsTrim v = "") = true := by simpa using he
        rw [this]
        simp only [dedupFirstExcluding, hs, if_false, List.append_assoc,
          List.cons_append, List.nil_append]

theorem dedupeStrings_eq_spec (texts : List String) :
    dedupeStrings texts = uniqueInboundTextsSpec texts := by
  have h := dedupeStringsGo_eq_spec texts []
  simpa [dedupeStrings, uniqueInboundTextsSpec] using h

theorem resolveCombinedText_getLast (ts : List String) :
    resolveCombinedText ts =
      match ts.getLast? with
      | none => ""
      | some last =>
        if isCommandTrigger (jsTrim last) then last
        else String.intercalate "\n" ts := by
  match ts with
  | [] => rfl
  | [t] =>
    have h1 : resolveCombinedText [t] = t := rfl
    rw [h1]
    show t = (if isCommandTrigger (jsTrim t) then t
      else String.intercalate "\n" [t])
    by_cases h : isCommandTrigger (jsTrim t)
    · rw [if_pos h]
    · rw [if_neg h]
      rfl
  | t1 :: t2 :: rest =>
    have hlen : (t1 :: t2 :: rest).length = rest.length + 2 := by simp
    have hget : (t1 :: t2 :: rest).get?
        ((t1 :: t2 :: rest).length - 1) = (t1 :: t2 :: rest).getLast? := by
      rw [List.getLast?_eq_get?]
    simp only [resolveCombinedText, hlen]
    have h0 : ¬ (rest.length + 2 = 0) := by omega
    have h1 : ¬ (rest.length + 2 = 1) := by omega
    rw [if_neg h0, if_neg h1]
    have hsome : ∃ last, (t1 :: t2 :: rest).getLast? = some last := by
      cases hx : (t1 :: t2 :: rest).getLast? with
      | none => simp [List.getLast?_eq_none_iff] at hx
      | some l => exact ⟨l, rfl⟩
    obtain ⟨last, hlast⟩ := hsome
    rw [show rest.length + 2 - 1 = (t1 :: t2 :: rest).length - 1 by simp,
      hget, hlast]
    simp

/-- A minimal concrete inbound message used by the C4 theorems; only the
message id, text, timestamp and raw payload vary. -/
def sampleInboundMessage (mid t : String) (ts : Int) (r : String) :
    OpenzaloInboundMessage :=
  { messageId := mid, msgId := none, cliMsgId := none, threadId := "t",
    toId := none, dmPeerId := none, senderId := "u", senderName := none,
    text := t, timestamp := ts, isGroup := false, quoteMsgId := none,
    quoteCliMsgId := none, quoteSender := none, quoteText := none,
    mentionIds := [], mediaPaths := [], mediaUrls := [],
    mediaTypes := [], raw := r }

/-- C4 counterexample. Flushing the three texts slash-x, b, slash-x: the
last message's text matches the command trigger, yet the merged text is
not that last text; the deduplication removed the final repeat, so the
command check saw b and the unique texts were joined instead. -/
theorem combined_text_last_message_counterexample :
    (combineDebouncedInbound
      [⟨sampleInboundMessage "m1" "/x" 1 "r1"⟩,
       ⟨sampleInboundMessage "m2" "b" 2 "r2"⟩,
       ⟨sampleInboundMessage "m3" "/x" 3 "r3"⟩]).map
        OpenzaloInboundMessage.text = some "/x\nb" ∧
    isCommandTrigger (jsTrim "/x") = true ∧
    ("/x\nb" : String) ≠ "/x" := by
  refine ⟨by decide, by decide, by decide⟩

/-- C4 (amended). For two or more buffered entries, the merge succeeds
and the merged text is determined by the deduplicated texts (each
trimmed, empties and exact repeats dropped, first-seen order): if the
last of those unique texts matches the command trigger, the merged text
is exactly that text, else all unique texts joined with newline. -/
theorem combined_text_follows_unique_texts
    (entries : List OpenzaloDebounceEntry) (h : 2 ≤ entries.length) :
    ∃ m, combineDebouncedInbound entries = some m ∧
      m.text = mergedCombinedTextSpec
        (entries.map (fun e => e.message.text)) := by
  match entries, h with
  | e0 :: e1 :: rest, _ =>
    refine ⟨_, rfl, ?_⟩
    show resolveCombinedText (dedupeStrings
      (((e0 :: e1 :: rest).map OpenzaloDebounceEntry.message).map
        OpenzaloInboundMessage.text)) = _
    rw [List.map_map]
    rw [dedupeStrings_eq_spec, resolveCombinedText_getLast]
    rfl

/-- C4 amended-theorem witness: the three texts hello, hello,
slash-status merge to slash-status. -/
theorem combined_text_follows_unique_texts_witness :
    (2 ≤ ([⟨sampleInboundMessage "m1" "hello" 1 "r1"⟩,
       ⟨sampleInboundMessage "m2" "hello" 2 "r2"⟩,
       ⟨sampleInboundMessage "m3" "/status" 3 "r3"⟩] :
        List OpenzaloDebounceEntry).length) ∧
    (∃ m, combineDebouncedInbound
        [⟨sampleInboundMessage "m1" "hello" 1 "r1"⟩,
         ⟨sampleInboundMessage "m2" "hello" 2 "r2"⟩,
         ⟨sampleInboundMessage "m3" "/status" 3 "r3"⟩] = some m ∧
      m.text = mergedCombinedTextSpec
        (([⟨sampleInboundMessage "m1" "hello" 1 "r1"⟩,
           ⟨sampleInboundMessage "m2" "hello" 2 "r2"⟩,
           ⟨sampleInboundMessage "m3" "/status" 3 "r3"⟩] :
             List OpenzaloDebounceEntry).map
            (fun e => e.message.text))) ∧
    mergedCombinedTextSpec ["hello", "hello", "/status"] = "/status" :=
  ⟨by decide,
    combined_text_follows_unique_texts _ (by decide),
    by decide⟩

/-!
Target normalization (normalize.ts): stripOpenzaloPrefix,
normalizeOpenzaloMessagingTarget, parseOpenzaloTarget and
formatOpenzaloOutboundTarget.
-/

/-- Case-insensitive prefix removal: when the list starts (after
lowercasing) with the given lowercase prefix, return the remainder. This
implements the `replace` of an anchored case-insensitive literal
alternative. -/
def ciStripCi (pfx : List Char) (l : List Char) : Option (List Char) :=
  if (l.take pfx.length).map Char.toLower = pfx then
    some (l.drop pfx.length)
  else
    none

/-- normalize.ts stripOpenzaloPrefix: trim, remove one leading
openzalo:, ozl: or zlu: tag (case-insensitive), trim again. -/
def stripOpenzaloPrefix (value : String) : String :=
  let t := jsTrimList value.data
  let t2 :=
    match ciStripCi "openzalo:".data t with
    | some r => r
    | none =>
      match ciStripCi "ozl:".data t with
      | some r => r
      | none =>
        match ciStripCi "zlu:".data t with
        | some r => r
        | none => t
  String.mk (jsTrimList t2)

/-- normalize.ts normalizeOpenzaloId restricted to the string-or-absent
inputs of the embedded call sites (the numeric branch of the source is
only reached from JSON payload parsing, which is out of the model). -/
def normalizeOpenzaloId (value : Option String) : String :=
  match value with
  | some s => jsTrim s
  | none => ""

/-- The anchored alias regex of normalizeOpenzaloMessagingTarget: a g or
u (case-insensitive), a dash, then one or more non-line-terminator
characters to the end of the string. On a match the id is trimmed and
the canonical form returned (the empty string when the id trims away). -/
def matchGuAlias (l : List Char) : Option String :=
  match l with
  | a :: b :: rest =>
    if (a.toLower = 'g' || a.toLower = 'u') && b = '-' &&
        !rest.isEmpty && rest.all (fun c => !jsIsLineTerminator c) then
      let kind := if a.toLower = 'g' then "group" else "user"
      let id := jsTrimList rest
      if id.isEmpty then some "" else some (kind ++ ":" ++ String.mk id)
    else
      none
  | _ => none

/-- One case-insensitive prefixed-id branch of
normalizeOpenzaloMessagingTarget: strip the prefix, trim the id, rebuild
with the canonical kind (empty string when the id trims away). -/
def matchCiPrefixId (pfx : String) (canonical : String) (l : List Char) :
    Option String :=
  match ciStripCi pfx.data l with
  | some r =>
    let id := jsTrimList r
    if id.isEmpty then some "" else some (canonical ++ ":" ++ String.mk id)
  | none => none

/-- The trailing labeled-id regex of normalizeOpenzaloMessagingTarget:
an opening parenthesis, three or more digits, a closing parenthesis,
optional whitespace, end of string; returns the digits. -/
def matchLabeledId (l : List Char) : Option String :=
  let r := l.reverse.dropWhile jsIsSpace
  match r with
  | ')' :: r2 =>
    let digits := r2.takeWhile Char.isDigit
    if 3 ≤ digits.length then
      match r2.drop digits.length with
      | '(' :: _ => some (String.mk digits.reverse)
      | _ => none
    else
      none
  | _ => none

/-- normalize.ts normalizeOpenzaloMessagingTarget: strip tags and an
optional thread: prefix, then try in order the dash alias (g or u, a
dash, an id), the g:, u:, dm: shorthands, the canonical group: and
user: prefixes, a trailing parenthesized numeric id, and finally pass
the stripped text through. -/
def normalizeOpenzaloMessagingTarget (input : String) : String :=
  let afterStrip := ( stripOpenzaloPrefix input).data
  let afterThread :=
    match ciStripCi "thread:".data afterStrip with
    | some r => r
    | none => afterStrip
  let stripped := jsTrimList afterThread
  if stripped.isEmpty then ""
  else
    match matchGuAlias stripped with
    | some out => out
    | none =>
      match matchCiPrefixId "g:" "group" stripped with
      | some out => out
      | none =>
        match matchCiPrefixId "u:" "user" stripped with
        | some out => out
        | none =>
          match matchCiPrefixId "dm:" "user" stripped with
          | some out => out
          | none =>
            match matchCiPrefixId "group:" "group" stripped with
            | some out => out
            | none =>
              match matchCiPrefixId "user:" "user" stripped with
              | some out => out
              | none =>
                match matchLabeledId stripped with
                | some out => out
                | none => String.mk stripped

/-- A parsed conversation target (types.ts OpenzaloThreadTarget). -/
structure OpenzaloThreadTarget where
  threadId : String
  isGroup : Bool
deriving DecidableEq, Repr

/-- normalize.ts parseOpenzaloTarget; the throws of the source become
none. -/
def parseOpenzaloTarget (raw : String) : Option OpenzaloThreadTarget :=
  let normalized := normalizeOpenzaloMessagingTarget raw
  if normalized = "" then none
  else
    match ciStripCi "group:".data normalized.data with
    | some r =>
      let threadId := jsTrimList r
      if threadId.isEmpty then none
      else some { threadId := String.mk threadId, isGroup := true }
    | none =>
      match ciStripCi "dm:".data normalized.data with
      | some r =>
        let threadId := jsTrimList r
        if threadId.isEmpty then none
        else some { threadId := String.mk threadId, isGroup := false }
      | none =>
        match ciStripCi "user:".data normalized.data with
        | some r =>
          let threadId := jsTrimList r
          if threadId.isEmpty then none
          else some { threadId := String.mk threadId, isGroup := false }
        | none => some { threadId := normalized, isGroup := false }

/-- normalize.ts formatOpenzaloOutboundTarget. -/
def formatOpenzaloOutboundTarget (threadId : String) (isGroup : Bool) :
    String :=
  if isGroup then "group:" ++ threadId else "user:" ++ threadId

/-!
Subagent conversation-binding store (subagent-bindings.ts).
-/

/-- subagent-bindings.ts OpenzaloSubagentBindingRecord. -/
structure OpenzaloSubagentBindingRecord where
  accountId : String
  «to» : String
  threadId : String
  isGroup : Bool
  childSessionKey : String
  agentId : String
  label : Option String
  boundAt : Int
  lastTouchedAt : Int
  ttlMs : Option Int
  expiresAt : Option Int
deriving DecidableEq, Repr

/-- The two module-level maps of subagent-bindings.ts. -/
structure OpenzaloSubagentBindingState where
  bindingsByConversation : List (String × OpenzaloSubagentBindingRecord)
  conversationKeysBySession : List (String × List String)
deriving DecidableEq, Repr

/-- The cleared store (resetOpenzaloSubagentBindingsForTests). -/
def emptyBindingState : OpenzaloSubagentBindingState :=
  { bindingsByConversation := [], conversationKeysBySession := [] }

/-- An ASCII letter or digit, the a-z0-9 class under the i flag. -/
def isAsciiAlnum (c : Char) : Bool :=
  c.isDigit || ('a' ≤ c && c ≤ 'z') || ('A' ≤ c && c ≤ 'Z')

/-- A character of the a-z0-9_- class (no i flag; applied after
lowercasing). -/
def isAccountIdChar (c : Char) : Bool :=
  c.isDigit || ('a' ≤ c && c ≤ 'z') || c = '_' || c = '-'

/-- The VALID_ID_RE test: alphanumeric head, up to 63 more characters
from the id class, case-insensitive. -/
def validAccountIdTest (l : List Char) : Bool :=
  match l with
  | [] => false
  | c :: rest =>
    isAsciiAlnum c && rest.length ≤ 63 &&
      rest.all (fun d => isAsciiAlnum d || d = '_' || d = '-')

/-- The global INVALID_CHARS_RE replace, written as a one-state scanner:
each maximal run of characters outside the id class becomes one dash
(the flag records whether the scanner is inside such a run). -/
def replaceInvalidRunsGo : Bool → List Char → List Char
  | _, [] => []
  | inRun, c :: rest =>
    if isAccountIdChar c then c :: replaceInvalidRunsGo false rest
    else if inRun then replaceInvalidRunsGo true rest
    else '-' :: replaceInvalidRunsGo true rest

/-- The global INVALID_CHARS_RE replace of canonicalizeAccountId. -/
def replaceInvalidRuns (l : List Char) : List Char :=
  replaceInvalidRunsGo false l

/-- subagent-bindings.ts canonicalizeAccountId. -/
def canonicalizeAccountId (value : String) : String :=
  if validAccountIdTest value.data then
    String.mk (value.data.map Char.toLower)
  else
    let lowered := value.data.map Char.toLower
    let replaced := replaceInvalidRuns lowered
    let noLead := replaced.dropWhile (fun c => c = '-')
    let noTrail := (noLead.reverse.dropWhile (fun c => c = '-')).reverse
    String.mk (noTrail.take 64)

/-- The object keys never admitted as account ids. -/
def BLOCKED_OBJECT_KEYS : List String :=
  ["__proto__", "prototype", "constructor"]

/-- subagent-bindings.ts normalizeCanonicalAccountId. -/
def normalizeCanonicalAccountId (value : String) : Option String :=
  let canonical := canonicalizeAccountId value
  if canonical = "" || canonical ∈ BLOCKED_OBJECT_KEYS then none
  else some canonical

/-- subagent-bindings.ts normalizeAccountId (local copy in that module),
falling back to the default account id. -/
def normalizeAccountId (value : Option String) : String :=
  let trimmed := jsTrim (value.getD "")
  if trimmed = "" then "default"
  else (normalizeCanonicalAccountId trimmed).getD "default"

/-- subagent-bindings.ts toConversationKey. -/
def toConversationKey (accountId «to» : String) : String :=
  accountId ++ ":" ++ «to»

/-- The normalized form of a raw `to` produced by resolveTargetFromTo. -/
structure OpenzaloResolvedTarget where
  «to» : String
  threadId : String
  isGroup : Bool
deriving DecidableEq, Repr

/-- subagent-bindings.ts resolveTargetFromTo: trim, parse, reformat. -/
def resolveTargetFromTo (raw : Option String) :
    Option OpenzaloResolvedTarget :=
  match raw with
  | none => none
  | some r =>
    let value := jsTrim r
    if value = "" then none
    else
      match parseOpenzaloTarget value with
      | none => none
      | some parsed =>
        some { «to» := formatOpenzaloOutboundTarget parsed.threadId
                 parsed.isGroup,
               threadId := parsed.threadId,
               isGroup := parsed.isGroup }

/-- subagent-bindings.ts isExpired: no expiry, or an expiry at zero or
below, never expires; otherwise expired once the expiry is reached. -/
def isExpired (record : OpenzaloSubagentBindingRecord) (at_ : Int) :
    Bool :=
  match record.expiresAt with
  | none => false
  | some e => if e ≤ 0 then false else e ≤ at_

/-- subagent-bindings.ts unlinkSessionConversation. -/
def unlinkSessionConversation (sessionKey conversationKey : String)
    (s : OpenzaloSubagentBindingState) : OpenzaloSubagentBindingState :=
  match mapGet s.conversationKeysBySession sessionKey with
  | none => s
  | some entries =>
    let entries2 := entries.filter (fun k => k ≠ conversationKey)
    if entries2.isEmpty then
      { s with conversationKeysBySession :=
          mapDelete s.conversationKeysBySession sessionKey }
    else
      { s with conversationKeysBySession :=
          mapSet s.conversationKeysBySession sessionKey entries2 }

/-- subagent-bindings.ts removeBindingByConversationKey. -/
def removeBindingByConversationKey (conversationKey : String)
    (s : OpenzaloSubagentBindingState) :
    Option OpenzaloSubagentBindingRecord × OpenzaloSubagentBindingState :=
  match mapGet s.bindingsByConversation conversationKey with
  | none => (none, s)
  | some existing =>
    let s1 :=
      { s with bindingsByConversation :=
          mapDelete s.bindingsByConversation conversationKey }
    (some existing,
      unlinkSessionConversation existing.childSessionKey conversationKey
        s1)

/-- subagent-bindings.ts setBindingRecord: unlink any prior binding for
the conversation key, store the record, link the session index. -/
def setBindingRecord (record : OpenzaloSubagentBindingRecord)
    (s : OpenzaloSubagentBindingState) : OpenzaloSubagentBindingState :=
  let conversationKey := toConversationKey record.accountId record.«to»
  let s1 := (removeBindingByConversationKey conversationKey s).2
  let s2 :=
    { s1 with bindingsByConversation :=
        mapSet s1.bindingsByConversation conversationKey record }
  let sessionEntries :=
    (mapGet s2.conversationKeysBySession record.childSessionKey).getD []
  let sessionEntries2 :=
    if conversationKey ∈ sessionEntries then sessionEntries
    else sessionEntries ++ [conversationKey]
  { s2 with conversationKeysBySession :=
      (mapSet s2.conversationKeysBySession record.childSessionKey
        sessionEntries2) }

/-- Loop body of sweepExpiredBindings over a snapshot of the
conversation map. -/
def sweepGo (now : Int) :
    List (String × OpenzaloSubagentBindingRecord) →
    OpenzaloSubagentBindingState → OpenzaloSubagentBindingState
  | [], s => s
  | (k, r) :: rest, s =>
    sweepGo now rest
      (if isExpired r now then (removeBindingByConversationKey k s).2
       else s)

/-- subagent-bindings.ts sweepExpiredBindings: remove every expired
record (lazy expiry sweep). -/
def sweepExpiredBindings (now : Int) (s : OpenzaloSubagentBindingState) :
    OpenzaloSubagentBindingState :=
  sweepGo now s.bindingsByConversation s

/-- subagent-bindings.ts cloneRecord: a shallow copy; object identity is
out of the value model, so this is the identity on record values. -/
def cloneRecord (record : OpenzaloSubagentBindingRecord) :
    OpenzaloSubagentBindingRecord :=
  record

/-- subagent-bindings.ts toPositiveInteger on a present-or-absent
number (integers model the finite doubles of the source, so the floor
is the identity). -/
def toPositiveInteger (value : Option Int) : Option Int :=
  match value with
  | none => none
  | some n => if n ≤ 0 then none else some (max 1 n)

/-- subagent-bindings.ts toTimestamp on a present-or-absent number. -/
def toTimestamp (value : Option Int) : Option Int :=
  match value with
  | none => none
  | some n => some (max 1 n)

/-- A JSON-ish scalar as found in a persisted snapshot record. -/
inductive JsValue where
  | vstr (s : String)
  | vnum (n : Int)
  | vbool (b : Bool)
  | vnull
deriving DecidableEq, Repr

/-- subagent-bindings.ts toOptionalString over an unknown value. -/
def jsToOptionalString (value : Option JsValue) : Option String :=
  match value with
  | some (.vstr s) =>
    let trimmed := jsTrim s
    if trimmed = "" then none else some trimmed
  | _ => none

/-- subagent-bindings.ts toPositiveInteger over an unknown value. -/
def jsToPositiveInteger (value : Option JsValue) : Option Int :=
  match value with
  | some (.vnum n) => toPositiveInteger (some n)
  | _ => none

/-- subagent-bindings.ts toTimestamp over an unknown value. -/
def jsToTimestamp (value : Option JsValue) : Option Int :=
  match value with
  | some (.vnum n) => toTimestamp (some n)
  | _ => none

/-- One raw candidate record of a persisted snapshot: every field may be
absent or of the wrong shape. -/
structure RawBindingRecord where
  accountId : Option JsValue
  «to» : Option JsValue
  childSessionKey : Option JsValue
  agentId : Option JsValue
  label : Option JsValue
  ttlMs : Option JsValue
  boundAt : Option JsValue
  lastTouchedAt : Option JsValue
  expiresAt : Option JsValue
deriving DecidableEq, Repr

/-- subagent-bindings.ts restoreBindingRecord: none for a non-object,
a record whose target cannot be resolved, a missing session or agent
id, or an expiry that is truthy and not after nowMs. -/
def restoreBindingRecord (raw : Option RawBindingRecord) (nowMs : Int) :
    Option OpenzaloSubagentBindingRecord :=
  match raw with
  | none => none
  | some source =>
    match resolveTargetFromTo (jsToOptionalString source.«to») with
    | none => none
    | some target =>
      match jsToOptionalString source.childSessionKey,
          jsToOptionalString source.agentId with
      | some childSessionKey, some agentId =>
        let accountId := normalizeAccountId
          (jsToOptionalString source.accountId)
        let label := jsToOptionalString source.label
        let ttlMs := jsToPositiveInteger source.ttlMs
        let boundAt := (jsToTimestamp source.boundAt).getD nowMs
        let lastTouchedAt :=
          (jsToTimestamp source.lastTouchedAt).getD boundAt
        let expiresAt :=
          match jsToPositiveInteger source.expiresAt with
          | some e => some e
          | none =>
            match ttlMs with
            | some t => some (lastTouchedAt + t)
            | none => none
        let record : OpenzaloSubagentBindingRecord :=
          { accountId := accountId, «to» := target.«to»,
            threadId := target.threadId, isGroup := target.isGroup,
            childSessionKey := childSessionKey, agentId := agentId,
            label := label, boundAt := boundAt,
            lastTouchedAt := lastTouchedAt, ttlMs := ttlMs,
            expiresAt := expiresAt }
        match expiresAt with
        | some e => if e ≠ 0 && e ≤ nowMs then none else some record
        | none => some record
      | _, _ => none

/-- Parameters of bindOpenzaloSubagentSession. -/
structure BindParams where
  accountId : Option String
  «to» : String
  childSessionKey : String
  agentId : String
  label : Option String
  ttlMs : Option Int
deriving DecidableEq, Repr

/-- subagent-bindings.ts bindOpenzaloSubagentSession at time `now`:
validate the target and ids, then replace any existing binding for the
conversation (last bind wins) and return a copy of the stored record. -/
def bindOpenzaloSubagentSession (params : BindParams) (now : Int)
    (s : OpenzaloSubagentBindingState) :
    Option OpenzaloSubagentBindingRecord × OpenzaloSubagentBindingState :=
  match resolveTargetFromTo (some params.«to») with
  | none => (none, s)
  | some target =>
    let childSessionKey := jsTrim params.childSessionKey
    let agentId := jsTrim params.agentId
    if childSessionKey = "" || agentId = "" then (none, s)
    else
      let accountId := normalizeAccountId params.accountId
      let ttlMs := toPositiveInteger params.ttlMs
      let record : OpenzaloSubagentBindingRecord :=
        { accountId := accountId, «to» := target.«to»,
          threadId := target.threadId, isGroup := target.isGroup,
          childSessionKey := childSessionKey, agentId := agentId,
          label := (params.label.map jsTrim).bind
            (fun l => if l = "" then none else some l),
          boundAt := now, lastTouchedAt := now, ttlMs := ttlMs,
          expiresAt := ttlMs.map (fun t => now + t) }
      (some (cloneRecord record), setBindingRecord record s)

/-- subagent-bindings.ts resolveOpenzaloBoundSessionByTarget at time
`now`: sweep expired records, normalize the target, return a copy of
the live record for the conversation key (with the swept state). -/
def resolveOpenzaloBoundSessionByTarget (accountId : Option String)
    («to» : String) (now : Int) (s : OpenzaloSubagentBindingState) :
    Option OpenzaloSubagentBindingRecord × OpenzaloSubagentBindingState :=
  let s1 := sweepExpiredBindings now s
  match resolveTargetFromTo (some «to») with
  | none => (none, s1)
  | some normalizedTarget =>
    let accountId' := normalizeAccountId accountId
    let conversationKey := toConversationKey accountId'
      normalizedTarget.«to»
    match mapGet s1.bindingsByConversation conversationKey with
    | none => (none, s1)
    | some record => (some (cloneRecord record), s1)

/-- subagent-bindings.ts replaceOpenzaloSubagentBindings: clear both
maps, then re-admit each candidate independently, counting the records
actually restored. A non-array input restores nothing. -/
def replaceOpenzaloSubagentBindings
    (records : Option (List (Option RawBindingRecord))) (nowMs : Int)
    (_s : OpenzaloSubagentBindingState) :
    Nat × OpenzaloSubagentBindingState :=
  match records with
  | none => (0, emptyBindingState)
  | some list =>
    list.foldl
      (fun acc raw =>
        match restoreBindingRecord raw nowMs with
        | none => acc
        | some restored => (acc.1 + 1, setBindingRecord restored acc.2))
      (0, emptyBindingState)

theorem mapGet_eq_none_forall {V : Type} (m : List (String × V))
    (k : String) (h : mapGet m k = none) : ∀ p ∈ m, p.1 ≠ k := by
  induction m with
  | nil => intro p hp; simp at hp
  | cons q t ih =>
    intro p hp
    by_cases hq : q.1 = k
    · simp [mapGet, hq] at h
    · rcases List.mem_cons.mp hp with h1 | h1
      · rw [h1]; exact hq
      · exact ih (by simpa [mapGet, hq] using h) p h1

theorem mapGet_some_mem {V : Type} (m : List (String × V)) (k : String)
    (v : V) (h : mapGet m k = some v) : (k, v) ∈ m := by
  induction m with
  | nil => simp [mapGet] at h
  | cons q t ih =>
    by_cases hq : q.1 = k
    · simp only [mapGet, hq, if_true, Option.some.injEq] at h
      have : q = (k, v) := by
        cases q; simp at hq h; simp [hq, h]
      simp [this]
    · exact List.mem_cons_of_mem _ (ih (by simpa [mapGet, hq] using h))

theorem mapDelete_no_key {V : Type} (m : List (String × V)) (k : String) :
    ∀ p ∈ mapDelete m k, p.1 ≠ k := by
  induction m with
  | nil => intro p hp; simp [mapDelete] at hp
  | cons q t ih =>
    intro p hp
    by_cases hq : q.1 = k
    · exact ih p (by simpa [mapDelete, hq] using hp)
    · simp only [mapDelete, hq, if_false] at hp
      rcases List.mem_cons.mp hp with h1 | h1
      · rw [h1]; exact hq
      · exact ih p h1

theorem mem_mapSet_no_key {V : Type} (m : List (String × V)) (k : String)
    (v v' : V) (h : ∀ p ∈ m, p.1 ≠ k) (hmem : (k, v') ∈ mapSet m k v) :
    v' = v := by
  have hany : m.any (fun p => p.1 = k) = false := by
    rw [List.any_eq_false]
    intro p hp
    simpa using h p hp
  unfold mapSet at hmem
  rw [hany] at hmem
  simp only [Bool.false_eq_true, if_false] at hmem
  rcases List.mem_append.mp hmem with h1 | h1
  · exact absurd rfl (h _ h1)
  · simpa using h1

theorem unlinkSessionConversation_bindings (a b : String)
    (s : OpenzaloSubagentBindingState) :
    (unlinkSessionConversation a b s).bindingsByConversation =
      s.bindingsByConversation := by
  unfold unlinkSessionConversation
  split
  · rfl
  · dsimp only
    split <;> rfl

theorem removeBinding_no_key (k : String)
    (s : OpenzaloSubagentBindingState) :
    ∀ p ∈ ((removeBindingByConversationKey k s).2).bindingsByConversation,
      p.1 ≠ k := by
  unfold removeBindingByConversationKey
  cases hg : mapGet s.bindingsByConversation k with
  | none =>
    intro p hp
    exact mapGet_eq_none_forall _ k hg p hp
  | some existing =>
    intro p hp
    rw [unlinkSessionConversation_bindings] at hp
    exact mapDelete_no_key _ k p hp

theorem removeBinding_bindings_lookup_ne (k k' : String)
    (s : OpenzaloSubagentBindingState) (hne : k ≠ k') :
    mapGet ((removeBindingByConversationKey k' s).2).bindingsByConversation
        k = mapGet s.bindingsByConversation k := by
  unfold removeBindingByConversationKey
  cases hg : mapGet s.bindingsByConversation k' with
  | none => rfl
  | some existing =>
    rw [unlinkSessionConversation_bindings]
    exact mapGet_mapDelete_ne _ k' k hne

theorem removeBinding_bindings_lookup_self (k : String)
    (s : OpenzaloSubagentBindingState) :
    mapGet ((removeBindingByConversationKey k s).2).bindingsByConversation
        k = none := by
  unfold removeBindingByConversationKey
  cases hg : mapGet s.bindingsByConversation k with
  | none => exact hg
  | some existing =>
    rw [unlinkSessionConversation_bindings]
    exact mapGet_mapDelete_self _ k

theorem setBindingRecord_lookup (record : OpenzaloSubagentBindingRecord)
    (s : OpenzaloSubagentBindingState) :
    mapGet (setBindingRecord record s).bindingsByConversation
        (toConversationKey record.accountId record.«to») = some record := by
  unfold setBindingRecord
  exact mapGet_mapSet_self _ _ _

theorem setBindingRecord_key_unique
    (record : OpenzaloSubagentBindingRecord)
    (s : OpenzaloSubagentBindingState) (r' : OpenzaloSubagentBindingRecord)
    (hmem : (toConversationKey record.accountId record.«to», r') ∈
      (setBindingRecord record s).bindingsByConversation) :
    r' = record := by
  unfold setBindingRecord at hmem
  exact mem_mapSet_no_key _ _ _ _
    (removeBinding_no_key (toConversationKey record.accountId record.«to»)
      s) hmem

theorem sweepGo_lookup_none (now : Int)
    (l : List (String × OpenzaloSubagentBindingRecord)) (k : String) :
    ∀ s : OpenzaloSubagentBindingState,
      mapGet s.bindingsByConversation k = none →
      mapGet (sweepGo now l s).bindingsByConversation k = none := by
  induction l with
  | nil => intro s h; exact h
  | cons p rest ih =>
    intro s h
    cases p with
    | mk k' r =>
      show mapGet (sweepGo now rest _).bindingsByConversation k = none
      by_cases hx : isExpired r now
      · simp only [hx, if_true]
        apply ih
        by_cases hk : k = k'
        · rw [hk, removeBinding_bindings_lookup_self]
        · rw [removeBinding_bindings_lookup_ne _ _ _ hk]
          exact h
      · simp only [hx, Bool.false_eq_true, if_false]
        exact ih s h

theorem sweepGo_lookup_live (now : Int)
    (l : List (String × OpenzaloSubagentBindingRecord)) (k : String)
    (r : OpenzaloSubagentBindingRecord) (hr : isExpired r now = false) :
    ∀ s : OpenzaloSubagentBindingState,
      mapGet s.bindingsByConversation k = some r →
      (∀ r', (k, r') ∈ l → r' = r) →
      mapGet (sweepGo now l s).bindingsByConversation k = some r := by
  induction l with
  | nil => intro s h _; exact h
  | cons p rest ih =>
    intro s h hl
    cases p with
    | mk k' r' =>
      show mapGet (sweepGo now rest _).bindingsByConversation k = some r
      by_cases hx : isExpired r' now
      · have hk : k' ≠ k := by
          intro he
          have := hl r' (by rw [he]; exact List.mem_cons_self _ _)
          rw [this] at hx
          rw [hr] at hx
          exact Bool.false_ne_true hx
        simp only [hx, if_true]
        apply ih _
        · rw [removeBinding_bindings_lookup_ne _ _ _ (fun he => hk he.symm)]
          exact h
        · intro r'' hmem
          exact hl r'' (List.mem_cons_of_mem _ hmem)
      · simp only [hx, Bool.false_eq_true, if_false]
        exact ih s h (fun r'' hmem => hl r'' (List.mem_cons_of_mem _ hmem))

theorem sweepGo_lookup_dead (now : Int)
    (l : List (String × OpenzaloSubagentBindingRecord)) (k : String)
    (r₀ : OpenzaloSubagentBindingRecord) :
    ∀ s : OpenzaloSubagentBindingState,
      (k, r₀) ∈ l →
      (∀ r', (k, r') ∈ l → isExpired r' now = true) →
      mapGet (sweepGo now l s).bindingsByConversation k = none := by
  induction l with
  | nil => intro s h _; simp at h
  | cons p rest ih =>
    intro s hmem hl
    cases p with
    | mk k' r' =>
      show mapGet (sweepGo now rest _).bindingsByConversation k = none
      by_cases hk : k' = k
      · have hx : isExpired r' now = true := hl r' (by rw [hk]; simp)
        simp only [hx, if_true]
        apply sweepGo_lookup_none
        by_cases hg : mapGet s.bindingsByConversation k = none
        · rw [hk]
          cases hgg : mapGet ((removeBindingByConversationKey k
              s).2).bindingsByConversation k with
          | none => rfl
          | some v =>
            rw [removeBinding_bindings_lookup_self] at hgg
            exact hgg.symm ▸ rfl
        · rw [hk, removeBinding_bindings_lookup_self]
      · rcases List.mem_cons.mp hmem with h1 | h1
        · exact absurd (congrArg Prod.fst h1).symm hk
        · by_cases hx : isExpired r' now
          · simp only [hx, if_true]
            exact ih _ h1
              (fun r'' hmem' => hl r'' (List.mem_cons_of_mem _ hmem'))
          · simp only [hx, Bool.false_eq_true, if_false]
            exact ih s h1
              (fun r'' hmem' => hl r'' (List.mem_cons_of_mem _ hmem'))

theorem toPositiveInteger_pos (x : Option Int) (T : Int)
    (h : toPositiveInteger x = some T) : 1 ≤ T := by
  cases x with
  | none => simp [toPositiveInteger] at h
  | some n =>
    simp only [toPositiveInteger] at h
    by_cases hn : n ≤ 0
    · simp [hn] at h
    · simp only [hn, if_false] at h
      have := h
      simp only [Option.some.injEq] at this
      omega

/-- The record that bindOpenzaloSubagentSession constructs for valid
parameters resolving to the given target. -/
def boundRecordOf (params : BindParams) (now : Int)
    (tgt : OpenzaloResolvedTarget) : OpenzaloSubagentBindingRecord :=
  { accountId := normalizeAccountId params.accountId,
    «to» := tgt.«to», threadId := tgt.threadId, isGroup := tgt.isGroup,
    childSessionKey := jsTrim params.childSessionKey,
    agentId := jsTrim params.agentId,
    label := (params.label.map jsTrim).bind
      (fun l => if l = "" then none else some l),
    boundAt := now, lastTouchedAt := now,
    ttlMs := toPositiveInteger params.ttlMs,
    expiresAt := (toPositiveInteger params.ttlMs).map (fun t => now + t) }

/-- C5. For a valid target and non-blank session and agent ids, bind
stores a record carrying the canonical target, and resolveByTarget with
the same account and target returns that record (same canonical to,
threadId, isGroup) as long as the record is not expired; when bind was
given a positive ttlMs, resolveByTarget returns none once the ttl has
elapsed (now plus ttl is at or before the resolve time). -/
theorem bind_then_resolveByTarget_roundtrip
    (s : OpenzaloSubagentBindingState) (params : BindParams) (now : Int)
    (tgt : OpenzaloResolvedTarget)
    (hres : resolveTargetFromTo (some params.«to») = some tgt)
    (hcsk : jsTrim params.childSessionKey ≠ "")
    (hagent : jsTrim params.agentId ≠ "")
    (hnow : 0 ≤ now) :
    ∃ r, (bindOpenzaloSubagentSession params now s).1 = some r ∧
      r.«to» = tgt.«to» ∧ r.threadId = tgt.threadId ∧
      r.isGroup = tgt.isGroup ∧
      (∀ now', (∀ T, toPositiveInteger params.ttlMs = some T →
          now' < now + T) →
        (resolveOpenzaloBoundSessionByTarget params.accountId params.«to»
          now' (bindOpenzaloSubagentSession params now s).2).1 = some r) ∧
      (∀ now' T, toPositiveInteger params.ttlMs = some T →
        now + T ≤ now' →
        (resolveOpenzaloBoundSessionByTarget params.accountId params.«to»
          now' (bindOpenzaloSubagentSession params now s).2).1 = none) := by
  have hcond : (decide (jsTrim params.childSessionKey = "") ||
      decide (jsTrim params.agentId = "")) = false := by
    simp [hcsk, hagent]
  have hbind : bindOpenzaloSubagentSession params now s =
      (some (boundRecordOf params now tgt),
        setBindingRecord (boundRecordOf params now tgt) s) := by
    unfold bindOpenzaloSubagentSession
    rw [hres]
    dsimp only
    rw [hcond]
    rfl
  refine ⟨boundRecordOf params now tgt, ?_, rfl, rfl, rfl, ?_, ?_⟩
  · rw [hbind]
  · intro now' hlive
    rw [hbind]
    have hx : isExpired (boundRecordOf params now tgt) now' = false := by
      show (match (toPositiveInteger params.ttlMs).map (fun t => now + t)
          with
        | none => false
        | some e => if e ≤ 0 then false else decide (e ≤ now')) = false
      cases hT : toPositiveInteger params.ttlMs with
      | none => rfl
      | some T =>
        have hlt := hlive T hT
        simp only [Option.map_some']
        by_cases h0 : now + T ≤ 0
        · simp [h0]
        · simp only [h0, if_false]
          simp
          omega
    have hkey : mapGet (sweepExpiredBindings now'
        (setBindingRecord (boundRecordOf params now tgt)
          s)).bindingsByConversation
        (toConversationKey (normalizeAccountId params.accountId)
          tgt.«to») = some (boundRecordOf params now tgt) := by
      exact sweepGo_lookup_live now' _ _ _ hx _
        (setBindingRecord_lookup _ s)
        (fun r' hm => setBindingRecord_key_unique _ s r' hm)
    unfold resolveOpenzaloBoundSessionByTarget
    rw [hres]
    dsimp only
    rw [hkey]
    rfl
  · intro now' T hT hge
    rw [hbind]
    have hTpos := toPositiveInteger_pos params.ttlMs T hT
    have hx : isExpired (boundRecordOf params now tgt) now' = true := by
      show (match (toPositiveInteger params.ttlMs).map (fun t => now + t)
          with
        | none => false
        | some e => if e ≤ 0 then false else decide (e ≤ now')) = true
      rw [hT]
      simp only [Option.map_some']
      have h0 : ¬ (now + T ≤ 0) := by omega
      simp only [h0, if_false]
      simp
      omega
    have hkey : mapGet (sweepExpiredBindings now'
        (setBindingRecord (boundRecordOf params now tgt)
          s)).bindingsByConversation
        (toConversationKey (normalizeAccountId params.accountId)
          tgt.«to») = none := by
      apply sweepGo_lookup_dead now' _ _ _ _
        (mapGet_some_mem _ _ _ (setBindingRecord_lookup _ s))
      intro r' hm
      have hr' := setBindingRecord_key_unique _ s r' hm
      rw [hr']
      exact hx
    unfold resolveOpenzaloBoundSessionByTarget
    rw [hres]
    dsimp only
    rw [hkey]

/-- C5 witness: binding target user:123 with session sess-1, agent main
and ttl 5 at time 100; resolving at 104 returns the record, resolving
at 110 returns none. -/
theorem bind_then_resolveByTarget_roundtrip_witness :
    (resolveTargetFromTo (some "user:123") =
      some { «to» := "user:123", threadId := "123", isGroup := false }) ∧
    jsTrim "sess-1" ≠ "" ∧ jsTrim "main" ≠ "" ∧ (0 : Int) ≤ 100 ∧
    (∃ r, (bindOpenzaloSubagentSession
        { accountId := some "default", «to» := "user:123",
          childSessionKey := "sess-1", agentId := "main",
          label := none, ttlMs := some 5 } 100 emptyBindingState).1 =
        some r ∧
      r.«to» = "user:123" ∧ r.threadId = "123" ∧ r.isGroup = false ∧
      (∀ now', (∀ T, toPositiveInteger (some (5 : Int)) = some T →
          now' < 100 + T) →
        (resolveOpenzaloBoundSessionByTarget (some "default") "user:123"
          now' (bindOpenzaloSubagentSession
            { accountId := some "default", «to» := "user:123",
              childSessionKey := "sess-1", agentId := "main",
              label := none, ttlMs := some 5 } 100
            emptyBindingState).2).1 = some r) ∧
      (∀ now' T, toPositiveInteger (some (5 : Int)) = some T →
        100 + T ≤ now' →
        (resolveOpenzaloBoundSessionByTarget (some "default") "user:123"
          now' (bindOpenzaloSubagentSession
            { accountId := some "default", «to» := "user:123",
              childSessionKey := "sess-1", agentId := "main",
              label := none, ttlMs := some 5 } 100
            emptyBindingState).2).1 = none)) := by
  refine ⟨by decide, by decide, by decide, by decide, ?_⟩
  exact bind_then_resolveByTarget_roundtrip emptyBindingState
    { accountId := some "default", «to» := "user:123",
      childSessionKey := "sess-1", agentId := "main",
      label := none, ttlMs := some 5 } 100
    { «to» := "user:123", threadId := "123", isGroup := false }
    (by decide) (by decide) (by decide) (by decide)

/-- A well-formed persisted candidate record: target user:123, session
sess-1, agent main, no expiry. -/
def sampleValidRawBinding : RawBindingRecord :=
  { accountId := some (.vstr "default"), «to» := some (.vstr "user:123"),
    childSessionKey := some (.vstr "sess-1"),
    agentId := some (.vstr "main"), label := none, ttlMs := none,
    boundAt := some (.vnum 50), lastTouchedAt := none,
    expiresAt := none }

/-- A candidate record whose target is blank. -/
def sampleBlankTargetRawBinding : RawBindingRecord :=
  { accountId := some (.vstr "default"), «to» := some (.vstr "   "),
    childSessionKey := some (.vstr "sess-2"),
    agentId := some (.vstr "main"), label := none, ttlMs := none,
    boundAt := none, lastTouchedAt := none, expiresAt := none }

/-- A candidate record whose expiry (5) is already in the past at
restore time 1000. -/
def sampleExpiredRawBinding : RawBindingRecord :=
  { accountId := some (.vstr "default"), «to» := some (.vstr "user:456"),
    childSessionKey := some (.vstr "sess-3"),
    agentId := some (.vstr "main"), label := none, ttlMs := none,
    boundAt := none, lastTouchedAt := none,
    expiresAt := some (.vnum 5) }

theorem replaceFold_count (now : Int)
    (records : List (Option RawBindingRecord)) :
    ∀ (n : Nat) (st : OpenzaloSubagentBindingState),
      (records.foldl
        (fun acc raw =>
          match restoreBindingRecord raw now with
          | none => acc
          | some restored =>
            (acc.1 + 1, setBindingRecord restored acc.2))
        (n, st)).1 =
      n + (records.filter
        (fun r => (restoreBindingRecord r now).isSome)).length := by
  induction records with
  | nil => intro n st; simp
  | cons raw rest ih =>
    intro n st
    simp only [List.foldl_cons, List.filter_cons]
    cases hr : restoreBindingRecord raw now with
    | none =>
      simp only [hr, Option.isSome_none, Bool.false_eq_true, if_false]
      exact ih n st
    | some restored =>
      simp only [hr, Option.isSome_some, if_true, List.length_cons]
      rw [ih (n + 1) (setBindingRecord restored st)]
      omega

/-- C6. replaceAll rebuilds the store from scratch (its result does not
depend on the prior state), counts exactly the candidate records that
pass the independent per-record validation, and on the concrete triple
of one valid, one blank-target and one already-expired record it
restores exactly one. -/
theorem replaceAll_validates_each_record_independently
    (s : OpenzaloSubagentBindingState)
    (records : List (Option RawBindingRecord)) (now : Int) :
    replaceOpenzaloSubagentBindings (some records) now s =
      replaceOpenzaloSubagentBindings (some records) now
        emptyBindingState ∧
    (replaceOpenzaloSubagentBindings (some records) now s).1 =
      (records.filter
        (fun r => (restoreBindingRecord r now).isSome)).length ∧
    (replaceOpenzaloSubagentBindings
      (some [some sampleValidRawBinding,
        some sampleBlankTargetRawBinding,
        some sampleExpiredRawBinding]) 1000 s).1 = 1 := by
  refine ⟨rfl, ?_, rfl⟩
  show (records.foldl _ (0, emptyBindingState)).1 = _
  rw [replaceFold_count now records 0 emptyBindingState]
  simp

/-!
Message reference cache (message-ids.ts): rememberOpenzaloMessage,
getLatestOpenzaloMessageForThread, resolveOpenzaloMessageRef and the
lazy prune.
-/

/-- message-ids.ts OpenzaloMessageCacheEntry. -/
structure OpenzaloMessageCacheEntry where
  accountId : String
  threadId : String
  isGroup : Bool
  msgId : Option String
  cliMsgId : Option String
  shortId : String
  timestamp : Int
  preview : Option String
deriving DecidableEq, Repr

/-- The six-hour entry TTL. -/
def CACHE_TTL_MS : Int := 6 * 60 * 60 * 1000

/-- The 4000-entry cap. -/
def CACHE_MAX : Nat := 4000

/-- The module-level maps and short-id counter of message-ids.ts. -/
structure OpenzaloMessageCacheState where
  cacheByKey : List (String × OpenzaloMessageCacheEntry)
  cacheByMsgId : List (String × String)
  cacheByCliMsgId : List (String × String)
  cacheByShortId : List (String × String)
  latestByThread : List (String × String)
  shortIdCounter : Nat
deriving DecidableEq, Repr

/-- The empty cache. -/
def emptyMessageCacheState : OpenzaloMessageCacheState :=
  { cacheByKey := [], cacheByMsgId := [], cacheByCliMsgId := [],
    cacheByShortId := [], latestByThread := [], shortIdCounter := 0 }

/-- message-ids.ts makeScopedId. -/
def makeScopedId (accountId id : String) : String :=
  accountId ++ ":" ++ id

/-- message-ids.ts makeThreadKey. -/
def makeThreadKey (accountId : String) (threadId : String)
    (isGroup : Bool) : String :=
  accountId ++ ":" ++ (if isGroup then "group" else "dm") ++ ":" ++
    threadId

/-- JS truthiness of a possibly-absent string: present and non-empty. -/
def optTruthy : Option String → Bool
  | some s => s ≠ ""
  | none => false

/-- The shared deletion body of pruneExpired: remove the entry under its
cache key and its msgId, cliMsgId and shortId index keys. -/
def deleteCacheEntry (key : String) (entry : OpenzaloMessageCacheEntry)
    (s : OpenzaloMessageCacheState) : OpenzaloMessageCacheState :=
  let s1 := { s with cacheByKey := mapDelete s.cacheByKey key }
  let s2 :=
    if optTruthy entry.msgId then
      { s1 with cacheByMsgId := (mapDelete s1.cacheByMsgId
          (makeScopedId entry.accountId (entry.msgId.getD ""))) }
    else s1
  let s3 :=
    if optTruthy entry.cliMsgId then
      { s2 with cacheByCliMsgId := (mapDelete s2.cacheByCliMsgId
          (makeScopedId entry.accountId (entry.cliMsgId.getD ""))) }
    else s2
  { s3 with cacheByShortId := (mapDelete s3.cacheByShortId
      (makeScopedId entry.accountId entry.shortId)) }

/-- First loop of pruneExpired over a snapshot of the entry map: delete
every entry whose timestamp is before the cutoff. -/
def pruneStaleGo (cutoff : Int) :
    List (String × OpenzaloMessageCacheEntry) →
    OpenzaloMessageCacheState → OpenzaloMessageCacheState
  | [], s => s
  | (key, entry) :: rest, s =>
    pruneStaleGo cutoff rest
      (if cutoff ≤ entry.timestamp then s else deleteCacheEntry key entry
        s)

/-- Second loop of pruneExpired: while over the cap, evict the oldest
(first) entry together with its index keys; the fuel bounds the
iteration count by the map size. -/
def capEvictGo : Nat → OpenzaloMessageCacheState →
    OpenzaloMessageCacheState
  | 0, s => s
  | fuel + 1, s =>
    if s.cacheByKey.length ≤ CACHE_MAX then s
    else
      match s.cacheByKey with
      | [] => s
      | (oldestKey, oldest) :: _ =>
        capEvictGo fuel (deleteCacheEntry oldestKey oldest s)

/-- message-ids.ts pruneExpired at time `now`: drop entries older than
the TTL, then evict oldest-first down to the cap. -/
def pruneExpired (now : Int) (s : OpenzaloMessageCacheState) :
    OpenzaloMessageCacheState :=
  let cutoff := now - CACHE_TTL_MS
  let s1 := pruneStaleGo cutoff s.cacheByKey s
  capEvictGo s1.cacheByKey.length s1

/-- The or-underscore of makeCacheKey (an absent or empty id becomes an
underscore). -/
def orUnderscore : Option String → String
  | some m => if m = "" then "_" else m
  | none => "_"

/-- message-ids.ts makeCacheKey. -/
def makeCacheKey (accountId : String) (msgId cliMsgId : Option String)
    (threadId : String) : String :=
  accountId ++ ":" ++ threadId ++ ":" ++ orUnderscore msgId ++ ":" ++
    orUnderscore cliMsgId

/-- message-ids.ts getEntryByCacheKey. -/
def getEntryByCacheKey (cacheKey : Option String)
    (s : OpenzaloMessageCacheState) : Option OpenzaloMessageCacheEntry :=
  match cacheKey with
  | none => none
  | some k => if k = "" then none else mapGet s.cacheByKey k

/-- Index of the first occurrence of a character. -/
def indexOfChar (c : Char) : List Char → Option Nat
  | [] => none
  | d :: rest =>
    if d = c then some 0 else (indexOfChar c rest).map (fun i => i + 1)

/-- message-ids.ts splitFullId: a paired id of the form msgId colon
cliMsgId, both sides non-empty after trimming; the colon may be neither
first nor last. -/
def splitFullId (raw : String) : Option (String × String) :=
  let trimmed := jsTrim raw
  if trimmed = "" then none
  else
    match indexOfChar ':' trimmed.data with
    | none => none
    | some i =>
      if i = 0 || trimmed.data.length - 1 ≤ i then none
      else
        let msgId := jsTrimList (trimmed.data.take i)
        let cliMsgId := jsTrimList (trimmed.data.drop (i + 1))
        if msgId.isEmpty || cliMsgId.isEmpty then none
        else some (String.mk msgId, String.mk cliMsgId)

/-- Parameters of rememberOpenzaloMessage. -/
structure RememberParams where
  accountId : String
  threadId : String
  isGroup : Bool
  msgId : Option String
  cliMsgId : Option String
  timestamp : Option Int
  preview : Option String
deriving DecidableEq, Repr

/-- message-ids.ts rememberOpenzaloMessage at time `now`: validate,
prune, upsert the entry under its composite key (reusing the short id
of an existing entry for the same key, else allocating the next one),
refresh the indexes and mark the entry latest for its thread. -/
def rememberOpenzaloMessage (params : RememberParams) (now : Int)
    (s : OpenzaloMessageCacheState) :
    Option OpenzaloMessageCacheEntry × OpenzaloMessageCacheState :=
  let accountId := jsTrim params.accountId
  let threadId := jsTrim params.threadId
  let msgId := normalizeOpenzaloId params.msgId
  let cliMsgId := normalizeOpenzaloId params.cliMsgId
  if accountId = "" || threadId = "" || (msgId = "" && cliMsgId = "")
  then (none, s)
  else
    let s1 := pruneExpired now s
    let cacheKey := makeCacheKey accountId
      (if msgId = "" then none else some msgId)
      (if cliMsgId = "" then none else some cliMsgId) threadId
    let existing := mapGet s1.cacheByKey cacheKey
    let allocated :=
      match existing with
      | some e =>
        if e.shortId ≠ "" then (e.shortId, s1.shortIdCounter)
        else (toString (s1.shortIdCounter + 1), s1.shortIdCounter + 1)
      | none =>
        (toString (s1.shortIdCounter + 1), s1.shortIdCounter + 1)
    let shortId := allocated.1
    let timestamp :=
      match params.timestamp with
      | some t => if 0 < t then t else now
      | none => now
    let preview := params.preview.bind
      (fun p => if jsTrim p = "" then none else some (jsTrim p))
    let entry : OpenzaloMessageCacheEntry :=
      { accountId := accountId, threadId := threadId,
        isGroup := params.isGroup,
        msgId := if msgId = "" then none else some msgId,
        cliMsgId := if cliMsgId = "" then none else some cliMsgId,
        shortId := shortId, timestamp := timestamp, preview := preview }
    let byKey := mapSet (mapDelete s1.cacheByKey cacheKey) cacheKey entry
    let byShort := mapSet s1.cacheByShortId
      (makeScopedId accountId shortId) cacheKey
    let byMsg :=
      if msgId = "" then s1.cacheByMsgId
      else mapSet s1.cacheByMsgId (makeScopedId accountId msgId) cacheKey
    let byCli :=
      if cliMsgId = "" then s1.cacheByCliMsgId
      else mapSet s1.cacheByCliMsgId (makeScopedId accountId cliMsgId)
        cacheKey
    let latest := mapSet s1.latestByThread
      (makeThreadKey accountId threadId params.isGroup) cacheKey
    (some entry,
      { cacheByKey := byKey, cacheByMsgId := byMsg,
        cacheByCliMsgId := byCli, cacheByShortId := byShort,
        latestByThread := latest, shortIdCounter := allocated.2 })

/-- message-ids.ts getLatestOpenzaloMessageForThread at time `now`. -/
def getLatestOpenzaloMessageForThread (accountId threadId : String)
    (isGroup : Bool) (now : Int) (s : OpenzaloMessageCacheState) :
    Option OpenzaloMessageCacheEntry × OpenzaloMessageCacheState :=
  let s1 := pruneExpired now s
  let threadKey := makeThreadKey (jsTrim accountId) (jsTrim threadId)
    isGroup
  (getEntryByCacheKey (mapGet s1.latestByThread threadKey) s1, s1)

/-- The {msgId, cliMsgId, shortId} result of resolveOpenzaloMessageRef. -/
structure OpenzaloMessageResolveResult where
  msgId : Option String
  cliMsgId : Option String
  shortId : Option String
deriving DecidableEq, Repr

/-- The digits-only one-to-six character short-id shape. -/
def isShortIdForm (l : List Char) : Bool :=
  1 ≤ l.length && l.length ≤ 6 && l.all Char.isDigit

/-- message-ids.ts resolveOpenzaloMessageRef at time `now`: a paired
msgId colon cliMsgId form wins, then a short numeric id against the
short-id index, then the msgId and cliMsgId indexes, and finally the
raw id passes through as a best-effort msgId. -/
def resolveOpenzaloMessageRef (accountId rawId : String) (now : Int)
    (s : OpenzaloMessageCacheState) :
    OpenzaloMessageResolveResult × OpenzaloMessageCacheState :=
  let s1 := pruneExpired now s
  let accountId' := jsTrim accountId
  let rawId' := jsTrim rawId
  let res : OpenzaloMessageResolveResult :=
    if accountId' = "" || rawId' = "" then
      { msgId := none, cliMsgId := none, shortId := none }
    else
      match splitFullId rawId' with
      | some pair =>
        { msgId := some pair.1, cliMsgId := some pair.2, shortId := none }
      | none =>
        let byShort :=
          if isShortIdForm rawId'.data then
            getEntryByCacheKey
              (mapGet s1.cacheByShortId (makeScopedId accountId' rawId'))
              s1
          else none
        match byShort with
        | some e =>
          { msgId := e.msgId, cliMsgId := e.cliMsgId,
            shortId := some e.shortId }
        | none =>
          match getEntryByCacheKey
              (mapGet s1.cacheByMsgId (makeScopedId accountId' rawId'))
              s1 with
          | some e =>
            { msgId := e.msgId, cliMsgId := e.cliMsgId,
              shortId := some e.shortId }
          | none =>
            match getEntryByCacheKey
                (mapGet s1.cacheByCliMsgId
                  (makeScopedId accountId' rawId')) s1 with
            | some e =>
              { msgId := e.msgId, cliMsgId := e.cliMsgId,
                shortId := some e.shortId }
            | none =>
              { msgId := some rawId', cliMsgId := none, shortId := none }
  (res, s1)

theorem string_data_eq (s t : String) (h : s.data = t.data) : s = t := by
  cases s with
  | mk d1 =>
    cases t with
    | mk d2 => congr 1

theorem makeScopedId_right_inj (a b1 b2 : String)
    (h : makeScopedId a b1 = makeScopedId a b2) : b1 = b2 := by
  have hd := congrArg String.data h
  simp only [makeScopedId, String.data_append] at hd
  have h2 := List.append_cancel_left hd
  apply string_data_eq
  exact h2

theorem indexOfChar_eq_none (c : Char) (l : List Char) (h : c ∉ l) :
    indexOfChar c l = none := by
  induction l with
  | nil => rfl
  | cons d rest ih =>
    have hd : ¬ d = c := by
      intro he; exact h (by rw [he]; exact List.mem_cons_self _ _)
    simp only [indexOfChar, hd, if_false]
    rw [ih (fun hm => h (List.mem_cons_of_mem _ hm))]
    rfl

theorem splitFullId_no_colon (r : String) (ht : jsTrim r = r)
    (hne : r ≠ "") (hc : (':' : Char) ∉ r.data) : splitFullId r = none := by
  unfold splitFullId
  rw [ht]
  rw [if_neg hne]
  rw [indexOfChar_eq_none _ _ hc]

theorem makeCacheKey_ne_empty (aid : String) (mm cc : Option String)
    (tid : String) : makeCacheKey aid mm cc tid ≠ "" := by
  intro h
  have hlen := congrArg String.length h
  have h1 : (":" : String).length = 1 := rfl
  have h0 : ("" : String).length = 0 := rfl
  simp only [makeCacheKey, String.length_append, h1, h0] at hlen
  omega

/-- C7 counterexample. An entry remembered with msgId 12:34 and
cliMsgId 99: resolving its own msgId 12:34 afterwards does not return
the entry's references; the paired-id parse splits it into msgId 12 and
cliMsgId 34 first. -/
theorem resolve_by_msgId_counterexample :
    (rememberOpenzaloMessage
      { accountId := "main", threadId := "t", isGroup := false,
        msgId := some "12:34", cliMsgId := some "99",
        timestamp := some 1000, preview := none } 1000
      emptyMessageCacheState).1 =
      some { accountId := "main", threadId := "t", isGroup := false,
             msgId := some "12:34", cliMsgId := some "99",
             shortId := "1", timestamp := 1000, preview := none } ∧
    (resolveOpenzaloMessageRef "main" "12:34" 1000
      (rememberOpenzaloMessage
        { accountId := "main", threadId := "t", isGroup := false,
          msgId := some "12:34", cliMsgId := some "99",
          timestamp := some 1000, preview := none } 1000
        emptyMessageCacheState).2).1 =
      { msgId := some "12", cliMsgId := some "34", shortId := none } ∧
    (some "12" : Option String) ≠ some "12:34" := by
  refine ⟨by decide, by decide, by decide⟩

/-- The entry produced by remembering ids m and c (no explicit
timestamp) into the empty cache at time now. -/
def roundtripEntry (accountId threadId : String) (isGroup : Bool)
    (m c : String) (now : Int) : OpenzaloMessageCacheEntry :=
  { accountId := accountId, threadId := threadId, isGroup := isGroup,
    msgId := some m, cliMsgId := some c, shortId := "1",
    timestamp := now, preview := none }

/-- The cache state produced by remembering ids m and c into the empty
cache at time now. -/
def roundtripState (accountId threadId : String) (isGroup : Bool)
    (m c : String) (now : Int) : OpenzaloMessageCacheState :=
  { cacheByKey := [(makeCacheKey accountId (some m) (some c) threadId,
      roundtripEntry accountId threadId isGroup m c now)],
    cacheByMsgId := [(makeScopedId accountId m,
      makeCacheKey accountId (some m) (some c) threadId)],
    cacheByCliMsgId := [(makeScopedId accountId c,
      makeCacheKey accountId (some m) (some c) threadId)],
    cacheByShortId := [(makeScopedId accountId "1",
      makeCacheKey accountId (some m) (some c) threadId)],
    latestByThread := [(makeThreadKey accountId threadId isGroup,
      makeCacheKey accountId (some m) (some c) threadId)],
    shortIdCounter := 1 }

theorem roundtripState_prune (accountId threadId : String)
    (isGroup : Bool) (m c : String) (now now₂ : Int)
    (hfresh : now₂ - CACHE_TTL_MS ≤ now) :
    pruneExpired now₂ (roundtripState accountId threadId isGroup m c now)
      = roundtripState accountId threadId isGroup m c now := by
  unfold pruneExpired
  dsimp only
  have h1 : pruneStaleGo (now₂ - CACHE_TTL_MS)
      (roundtripState accountId threadId isGroup m c now).cacheByKey
      (roundtripState accountId threadId isGroup m c now) =
      roundtripState accountId threadId isGroup m c now := by
    show pruneStaleGo (now₂ - CACHE_TTL_MS)
        [(makeCacheKey accountId (some m) (some c) threadId,
          roundtripEntry accountId threadId isGroup m c now)]
        (roundtripState accountId threadId isGroup m c now) =
      roundtripState accountId threadId isGroup m c now
    unfold pruneStaleGo
    rw [if_pos (show now₂ - CACHE_TTL_MS ≤
      (roundtripEntry accountId threadId isGroup m c now).timestamp from
        hfresh)]
    rfl
  rw [h1]
  rfl

/-- C7 (amended). For colon-free non-blank pre-trimmed ids, an entry
remembered into the empty cache with both a msgId and a cliMsgId
resolves to the same references by its short id 1, by its msgId and by
its cliMsgId (while unexpired); and a trimmed rawId that matches no
cached entry and is not of the paired msgId colon cliMsgId form
resolves to msgId rawId with the trimmed input passed through. -/
theorem remember_then_resolve_roundtrip
    (accountId threadId m c : String) (isGroup : Bool) (now now₂ : Int)
    (haid : jsTrim accountId = accountId) (haid' : accountId ≠ "")
    (htid : jsTrim threadId = threadId) (htid' : threadId ≠ "")
    (hm : jsTrim m = m) (hm' : m ≠ "") (hmc : (':' : Char) ∉ m.data)
    (hc : jsTrim c = c) (hc' : c ≠ "") (hcc : (':' : Char) ∉ c.data)
    (hfresh : now₂ - CACHE_TTL_MS ≤ now) :
    ∃ e s2,
      rememberOpenzaloMessage
        { accountId := accountId, threadId := threadId,
          isGroup := isGroup, msgId := some m, cliMsgId := some c,
          timestamp := none, preview := none } now
        emptyMessageCacheState = (some e, s2) ∧
      e.msgId = some m ∧ e.cliMsgId = some c ∧ e.shortId = "1" ∧
      (resolveOpenzaloMessageRef accountId "1" now₂ s2).1 =
        { msgId := some m, cliMsgId := some c, shortId := some "1" } ∧
      (resolveOpenzaloMessageRef accountId m now₂ s2).1 =
        { msgId := some m, cliMsgId := some c, shortId := some "1" } ∧
      (resolveOpenzaloMessageRef accountId c now₂ s2).1 =
        { msgId := some m, cliMsgId := some c, shortId := some "1" } ∧
      (∀ rawId, jsTrim rawId = rawId → rawId ≠ "" →
        splitFullId rawId = none → rawId ≠ "1" → rawId ≠ m → rawId ≠ c →
        (resolveOpenzaloMessageRef accountId rawId now₂ s2).1 =
          { msgId := some rawId, cliMsgId := none, shortId := none }) := by
  refine ⟨roundtripEntry accountId threadId isGroup m c now,
    roundtripState accountId threadId isGroup m c now,
    ?_, rfl, rfl, rfl, ?_, ?_, ?_, ?_⟩
  · unfold rememberOpenzaloMessage
    dsimp only [normalizeOpenzaloId]
    rw [haid, htid, hm, hc]
    simp only [haid', htid', hm', hc', decide_eq_true_eq, if_neg,
      decide_False, Bool.false_or, Bool.false_and, Bool.or_false,
      Bool.and_false, Bool.false_eq_true, if_false, if_true]
    have hpe : pruneExpired now emptyMessageCacheState =
        emptyMessageCacheState := rfl
    rw [hpe]
    rfl
  · unfold resolveOpenzaloMessageRef
    rw [roundtripState_prune accountId threadId isGroup m c now now₂
      hfresh]
    dsimp only
    rw [haid]
    have ht1 : jsTrim "1" = "1" := rfl
    have hsf1 : splitFullId "1" = none := rfl
    have hform1 : isShortIdForm ("1" : String).data = true := rfl
    simp [roundtripState, roundtripEntry, ht1, hsf1, hform1, haid',
      mapGet, getEntryByCacheKey,
      makeCacheKey_ne_empty accountId (some m) (some c) threadId]
  · unfold resolveOpenzaloMessageRef
    rw [roundtripState_prune accountId threadId isGroup m c now now₂
      hfresh]
    dsimp only
    rw [haid, hm]
    have hsfm : splitFullId m = none := splitFullId_no_colon m hm hm' hmc
    by_cases hm1 : m = "1"
    · subst hm1
      have hsf1 : splitFullId "1" = none := rfl
      have hform1 : isShortIdForm ("1" : String).data = true := rfl
      simp [roundtripState, roundtripEntry, hsf1, hform1, haid',
        mapGet, getEntryByCacheKey,
        makeCacheKey_ne_empty accountId (some "1") (some c) threadId]
    · have hne1 : ¬ (makeScopedId accountId "1" = makeScopedId accountId
          m) :=
        fun hh => hm1 (makeScopedId_right_inj _ _ _ hh).symm
      by_cases hform : isShortIdForm m.data = true
      · simp [roundtripState, roundtripEntry, hsfm, hform, hne1, haid',
          hm', mapGet, getEntryByCacheKey,
          makeCacheKey_ne_empty accountId (some m) (some c) threadId]
      · simp [roundtripState, roundtripEntry, hsfm, hform, haid', hm',
          mapGet, getEntryByCacheKey,
          makeCacheKey_ne_empty accountId (some m) (some c) threadId]
  · unfold resolveOpenzaloMessageRef
    rw [roundtripState_prune accountId threadId isGroup m c now now₂
      hfresh]
    dsimp only
    rw [haid, hc]
    have hsfc : splitFullId c = none := splitFullId_no_colon c hc hc' hcc
    by_cases hc1 : c = "1"
    · subst hc1
      have hsf1 : splitFullId "1" = none := rfl
      have hform1 : isShortIdForm ("1" : String).data = true := rfl
      simp [roundtripState, roundtripEntry, hsf1, hform1, haid',
        mapGet, getEntryByCacheKey,
        makeCacheKey_ne_empty accountId (some m) (some "1") threadId]
    · have hne1 : ¬ (makeScopedId accountId "1" = makeScopedId accountId
          c) :=
        fun hh => hc1 (makeScopedId_right_inj _ _ _ hh).symm
      by_cases hcm : c = m
      · subst hcm
        by_cases hform : isShortIdForm c.data = true
        · simp [roundtripState, roundtripEntry, hsfc, hform, hne1,
            haid', hc', mapGet, getEntryByCacheKey,
            makeCacheKey_ne_empty accountId (some c) (some c) threadId]
        · simp [roundtripState, roundtripEntry, hsfc, hform, haid', hc',
            mapGet, getEntryByCacheKey,
            makeCacheKey_ne_empty accountId (some c) (some c) threadId]
      · have hnem : ¬ (makeScopedId accountId m = makeScopedId accountId
            c) :=
          fun hh => hcm (makeScopedId_right_inj _ _ _ hh).symm
        by_cases hform : isShortIdForm c.data = true
        · simp [roundtripState, roundtripEntry, hsfc, hform, hne1, hnem,
            haid', hc', mapGet, getEntryByCacheKey,
            makeCacheKey_ne_empty accountId (some m) (some c) threadId]
        · simp [roundtripState, roundtripEntry, hsfc, hform, hnem,
            haid', hc', mapGet, getEntryByCacheKey,
            makeCacheKey_ne_empty accountId (some m) (some c) threadId]
  · intro rawId hr hr' hrsf hr1 hrm hrc
    unfold resolveOpenzaloMessageRef
    rw [roundtripState_prune accountId threadId isGroup m c now now₂
      hfresh]
    dsimp only
    rw [haid, hr]
    have hne1 : ¬ (makeScopedId accountId "1" = makeScopedId accountId
        rawId) :=
      fun hh => hr1 (makeScopedId_right_inj _ _ _ hh).symm
    have hnem : ¬ (makeScopedId accountId m = makeScopedId accountId
        rawId) :=
      fun hh => hrm (makeScopedId_right_inj _ _ _ hh).symm
    have hnec : ¬ (makeScopedId accountId c = makeScopedId accountId
        rawId) :=
      fun hh => hrc (makeScopedId_right_inj _ _ _ hh).symm
    by_cases hform : isShortIdForm rawId.data = true
    · simp [roundtripState, roundtripEntry, hrsf, hform, hne1, hnem,
        hnec, haid', hr', mapGet, getEntryByCacheKey]
    · simp [roundtripState, roundtripEntry, hrsf, hform, hnem, hnec,
        haid', hr', mapGet, getEntryByCacheKey]

/-- C7 witness: remembering msgId m100 and cliMsgId c200 for account
main, thread t, then resolving by 1, by m100, by c200, and by the
unknown id zzz. -/
theorem remember_then_resolve_roundtrip_witness :
    (jsTrim "main" = "main" ∧ ("main" : String) ≠ "" ∧
     jsTrim "t" = "t" ∧ ("t" : String) ≠ "" ∧
     jsTrim "m100" = "m100" ∧ ("m100" : String) ≠ "" ∧
     (':' : Char) ∉ ("m100" : String).data ∧
     jsTrim "c200" = "c200" ∧ ("c200" : String) ≠ "" ∧
     (':' : Char) ∉ ("c200" : String).data ∧
     (1000 : Int) - CACHE_TTL_MS ≤ 1000) ∧
    (∃ e s2,
      rememberOpenzaloMessage
        { accountId := "main", threadId := "t", isGroup := false,
          msgId := some "m100", cliMsgId := some "c200",
          timestamp := none, preview := none } 1000
        emptyMessageCacheState = (some e, s2) ∧
      e.msgId = some "m100" ∧ e.cliMsgId = some "c200" ∧
      e.shortId = "1" ∧
      (resolveOpenzaloMessageRef "main" "1" 1000 s2).1 =
        { msgId := some "m100", cliMsgId := some "c200",
          shortId := some "1" } ∧
      (resolveOpenzaloMessageRef "main" "m100" 1000 s2).1 =
        { msgId := some "m100", cliMsgId := some "c200",
          shortId := some "1" } ∧
      (resolveOpenzaloMessageRef "main" "c200" 1000 s2).1 =
        { msgId := some "m100", cliMsgId := some "c200",
          shortId := some "1" } ∧
      (∀ rawId, jsTrim rawId = rawId → rawId ≠ "" →
        splitFullId rawId = none → rawId ≠ "1" → rawId ≠ "m100" →
        rawId ≠ "c200" →
        (resolveOpenzaloMessageRef "main" rawId 1000 s2).1 =
          { msgId := some rawId, cliMsgId := none,
            shortId := none })) :=
  ⟨⟨rfl, by decide, rfl, by decide, rfl, by decide, by decide, rfl,
    by decide, by decide, by decide⟩,
   remember_then_resolve_roundtrip "main" "t" "m100" "c200" false 1000
     1000 rfl (by decide) rfl (by decide) rfl (by decide) (by decide)
     rfl (by decide) (by decide) (by decide)⟩

/-- C8 counterexample. A remember carrying an explicit caller-supplied
timestamp far in the past (1) at now equal to one billion leaves that
entry in the cache although it is older than six hours, so entries
older than 6 hours have not all been purged when the operation
completes. -/
theorem cache_keeps_old_timestamp_counterexample :
    (((rememberOpenzaloMessage
      { accountId := "main", threadId := "t", isGroup := false,
        msgId := some "m1", cliMsgId := none, timestamp := some 1,
        preview := none } 1000000000
      emptyMessageCacheState).2).cacheByKey.all
        (fun p => (1000000000 : Int) - CACHE_TTL_MS ≤ p.2.timestamp)) =
      false ∧
    ((rememberOpenzaloMessage
      { accountId := "main", threadId := "t", isGroup := false,
        msgId := some "m1", cliMsgId := none, timestamp := some 1,
        preview := none } 1000000000
      emptyMessageCacheState).2).cacheByKey.length = 1 := by
  refine ⟨by decide, by decide⟩

theorem mapDelete_eq_filter {V : Type} (m : List (String × V))
    (k : String) : mapDelete m k = m.filter (fun p => p.1 ≠ k) := by
  induction m with
  | nil => rfl
  | cons p t ih =>
    by_cases hp : p.1 = k
    · rw [mapDelete, if_pos hp, List.filter_cons,
        if_neg (by simpa using hp)]
      exact ih
    · rw [mapDelete, if_neg hp, List.filter_cons,
        if_pos (by simpa using hp)]
      rw [ih]

theorem mapDelete_length_le {V : Type} (m : List (String × V))
    (k : String) : (mapDelete m k).length ≤ m.length := by
  rw [mapDelete_eq_filter]
  exact (List.filter_sublist m).length_le

theorem mapDelete_eq_self {V : Type} (m : List (String × V)) (k : String)
    (h : ∀ p ∈ m, p.1 ≠ k) : mapDelete m k = m := by
  induction m with
  | nil => rfl
  | cons p t ih =>
    rw [mapDelete, if_neg (h p (List.mem_cons_self _ _))]
    rw [ih (fun q hq => h q (List.mem_cons_of_mem _ hq))]

theorem mapSet_length_le {V : Type} (m : List (String × V)) (k : String)
    (v : V) : (mapSet m k v).length ≤ m.length + 1 := by
  unfold mapSet
  split
  · simp
  · simp

theorem mapGet_mapDelete_of_none {V : Type} (m : List (String × V))
    (k k' : String) (h : mapGet m k = none) :
    mapGet (mapDelete m k') k = none := by
  by_cases hk : k = k'
  · rw [hk]
    exact mapGet_mapDelete_self m k'
  · rw [mapGet_mapDelete_ne m k' k hk]
    exact h

theorem keys_nodup_unique {V : Type} (m : List (String × V))
    (hnd : (m.map Prod.fst).Nodup) (k : String) (v v' : V)
    (h1 : (k, v) ∈ m) (h2 : (k, v') ∈ m) : v = v' := by
  induction m with
  | nil => simp at h1
  | cons p t ih =>
    simp only [List.map_cons, List.nodup_cons] at hnd
    rcases List.mem_cons.mp h1 with ha | ha
    · rcases List.mem_cons.mp h2 with hb | hb
      · rw [← ha] at hb
        exact (Prod.mk.injEq _ _ _ _ |>.mp (hb.symm)).2
      · exfalso
        apply hnd.1
        have : p.1 = k := by rw [← ha]
        rw [this]
        exact List.mem_map.mpr ⟨(k, v'), hb, rfl⟩
    · rcases List.mem_cons.mp h2 with hb | hb
      · exfalso
        apply hnd.1
        have : p.1 = k := by rw [← hb]
        rw [this]
        exact List.mem_map.mpr ⟨(k, v), ha, rfl⟩
      · exact ih hnd.2 ha hb

theorem deleteCacheEntry_cacheByKey (key : String)
    (entry : OpenzaloMessageCacheEntry) (s : OpenzaloMessageCacheState) :
    (deleteCacheEntry key entry s).cacheByKey =
      mapDelete s.cacheByKey key := by
  unfold deleteCacheEntry
  dsimp only
  split <;> split <;> rfl

theorem deleteCacheEntry_cacheByShortId (key : String)
    (entry : OpenzaloMessageCacheEntry) (s : OpenzaloMessageCacheState) :
    (deleteCacheEntry key entry s).cacheByShortId =
      mapDelete s.cacheByShortId
        (makeScopedId entry.accountId entry.shortId) := by
  unfold deleteCacheEntry
  dsimp only
  split <;> split <;> rfl

theorem deleteCacheEntry_cacheByMsgId (key : String)
    (entry : OpenzaloMessageCacheEntry) (s : OpenzaloMessageCacheState) :
    (deleteCacheEntry key entry s).cacheByMsgId =
      (if optTruthy entry.msgId then
        mapDelete s.cacheByMsgId
          (makeScopedId entry.accountId (entry.msgId.getD ""))
      else s.cacheByMsgId) := by
  unfold deleteCacheEntry
  dsimp only
  split <;> split <;> rfl

theorem deleteCacheEntry_cacheByCliMsgId (key : String)
    (entry : OpenzaloMessageCacheEntry) (s : OpenzaloMessageCacheState) :
    (deleteCacheEntry key entry s).cacheByCliMsgId =
      (if optTruthy entry.cliMsgId then
        mapDelete s.cacheByCliMsgId
          (makeScopedId entry.accountId (entry.cliMsgId.getD ""))
      else s.cacheByCliMsgId) := by
  unfold deleteCacheEntry
  dsimp only
  split <;> split <;> rfl

/-- The keys of the snapshot entries that the stale sweep deletes. -/
def staleKeysOf (cutoff : Int)
    (l : List (String × OpenzaloMessageCacheEntry)) : List String :=
  (l.filter (fun p => p.2.timestamp < cutoff)).map Prod.fst

theorem pruneStaleGo_cacheByKey (cutoff : Int) :
    ∀ (l : List (String × OpenzaloMessageCacheEntry))
      (s : OpenzaloMessageCacheState),
      (pruneStaleGo cutoff l s).cacheByKey =
        s.cacheByKey.filter
          (fun p => decide (p.1 ∉ staleKeysOf cutoff l)) := by
  intro l
  induction l with
  | nil =>
    intro s
    show s.cacheByKey = _
    have : ∀ p : String × OpenzaloMessageCacheEntry,
        (decide (p.1 ∉ staleKeysOf cutoff [])) = true := by
      intro p
      simp [staleKeysOf]
    rw [List.filter_eq_self.mpr (fun p _ => this p)]
  | cons q rest ih =>
    intro s
    cases q with
    | mk k e =>
      show (pruneStaleGo cutoff rest _).cacheByKey = _
      by_cases hts : cutoff ≤ e.timestamp
      · rw [if_pos hts]
        rw [ih s]
        have hpred : ∀ p : String × OpenzaloMessageCacheEntry,
            (decide (p.1 ∉ staleKeysOf cutoff rest)) =
              (decide (p.1 ∉ staleKeysOf cutoff ((k, e) :: rest))) := by
          intro p
          have : staleKeysOf cutoff ((k, e) :: rest) =
              staleKeysOf cutoff rest := by
            unfold staleKeysOf
            rw [List.filter_cons, if_neg (by simpa using not_lt.mpr hts)]
          rw [this]
        exact List.filter_congr (fun p _ => (hpred p))
      · rw [if_neg hts]
        rw [ih (deleteCacheEntry k e s)]
        rw [deleteCacheEntry_cacheByKey, mapDelete_eq_filter,
          List.filter_filter]
        have hsk : staleKeysOf cutoff ((k, e) :: rest) =
            k :: staleKeysOf cutoff rest := by
          unfold staleKeysOf
          rw [List.filter_cons, if_pos (by simpa using not_le.mp hts)]
          rfl
        rw [hsk]
        apply List.filter_congr
        intro p _
        by_cases h1 : p.1 = k
        · simp [h1]
        · simp [h1]

theorem capEvictGo_cacheByKey :
    ∀ (fuel : Nat) (s : OpenzaloMessageCacheState),
      s.cacheByKey.length ≤ fuel →
      (s.cacheByKey.map Prod.fst).Nodup →
      (capEvictGo fuel s).cacheByKey =
        s.cacheByKey.drop (s.cacheByKey.length - CACHE_MAX) := by
  intro fuel
  induction fuel with
  | zero =>
    intro s hlen _
    have : s.cacheByKey = [] := List.length_eq_zero.mp (by omega)
    show s.cacheByKey = _
    rw [this]
    rfl
  | succ fuel ih =>
    intro s hlen hnd
    show (if s.cacheByKey.length ≤ CACHE_MAX then s else _).cacheByKey
      = _
    by_cases hmax : s.cacheByKey.length ≤ CACHE_MAX
    · rw [if_pos hmax]
      have : s.cacheByKey.length - CACHE_MAX = 0 := by omega
      rw [this, List.drop_zero]
    · rw [if_neg hmax]
      cases hsk : s.cacheByKey with
      | nil => simp [hsk] at hmax
      | cons q tail =>
        cases q with
        | mk k e =>
          have hnotail : ∀ p ∈ tail, p.1 ≠ k := by
            intro p hp he
            rw [hsk] at hnd
            simp only [List.map_cons, List.nodup_cons] at hnd
            exact hnd.1 (he ▸ List.mem_map.mpr ⟨p, hp, rfl⟩)
          have hdel : (deleteCacheEntry k e s).cacheByKey = tail := by
            rw [deleteCacheEntry_cacheByKey, hsk]
            rw [mapDelete, if_pos rfl]
            exact mapDelete_eq_self tail k hnotail
          have hlen2 : (deleteCacheEntry k e s).cacheByKey.length ≤
              fuel := by
            rw [hdel]
            rw [hsk] at hlen
            simp only [List.length_cons] at hlen
            omega
          have hnd2 : ((deleteCacheEntry k e s).cacheByKey.map
              Prod.fst).Nodup := by
            rw [hdel]
            rw [hsk] at hnd
            simp only [List.map_cons, List.nodup_cons] at hnd
            exact hnd.2
          show (capEvictGo fuel _).cacheByKey = _
          rw [ih (deleteCacheEntry k e s) hlen2 hnd2, hdel]
          rw [hsk] at hmax
          simp only [List.length_cons] at hmax
          have hd : (k, e) :: tail = [(k, e)] ++ tail := rfl
          have harith : ((k, e) :: tail).length - CACHE_MAX =
              (tail.length - CACHE_MAX) + 1 := by
            simp only [List.length_cons]
            omega
          rw [harith, List.drop_succ_cons]

/-- The msgId, cliMsgId and shortId index keys of an entry are all
absent from the given cache state (the per-entry post-condition of an
eviction). -/
def indexesClearedFor (e : OpenzaloMessageCacheEntry)
    (st : OpenzaloMessageCacheState) : Prop :=
  mapGet st.cacheByShortId (makeScopedId e.accountId e.shortId) = none ∧
  (optTruthy e.msgId = true →
    mapGet st.cacheByMsgId
      (makeScopedId e.accountId (e.msgId.getD "")) = none) ∧
  (optTruthy e.cliMsgId = true →
    mapGet st.cacheByCliMsgId
      (makeScopedId e.accountId (e.cliMsgId.getD "")) = none)

theorem deleteCacheEntry_clears_own (key : String)
    (e : OpenzaloMessageCacheEntry) (st : OpenzaloMessageCacheState) :
    indexesClearedFor e (deleteCacheEntry key e st) := by
  refine ⟨?_, ?_, ?_⟩
  · rw [deleteCacheEntry_cacheByShortId]
    exact mapGet_mapDelete_self _ _
  · intro ht
    rw [deleteCacheEntry_cacheByMsgId, if_pos ht]
    exact mapGet_mapDelete_self _ _
  · intro ht
    rw [deleteCacheEntry_cacheByCliMsgId, if_pos ht]
    exact mapGet_mapDelete_self _ _

theorem indexesCleared_delete_mono (e : OpenzaloMessageCacheEntry)
    (st : OpenzaloMessageCacheState) (k' : String)
    (e' : OpenzaloMessageCacheEntry) (h : indexesClearedFor e st) :
    indexesClearedFor e (deleteCacheEntry k' e' st) := by
  obtain ⟨h1, h2, h3⟩ := h
  refine ⟨?_, ?_, ?_⟩
  · rw [deleteCacheEntry_cacheByShortId]
    exact mapGet_mapDelete_of_none _ _ _ h1
  · intro ht
    rw [deleteCacheEntry_cacheByMsgId]
    by_cases hb : optTruthy e'.msgId = true
    · rw [if_pos hb]
      exact mapGet_mapDelete_of_none _ _ _ (h2 ht)
    · rw [if_neg hb]
      exact h2 ht
  · intro ht
    rw [deleteCacheEntry_cacheByCliMsgId]
    by_cases hb : optTruthy e'.cliMsgId = true
    · rw [if_pos hb]
      exact mapGet_mapDelete_of_none _ _ _ (h3 ht)
    · rw [if_neg hb]
      exact h3 ht

theorem indexesCleared_pruneStaleGo (cutoff : Int)
    (e : OpenzaloMessageCacheEntry) :
    ∀ (l : List (String × OpenzaloMessageCacheEntry))
      (st : OpenzaloMessageCacheState),
      indexesClearedFor e st →
      indexesClearedFor e (pruneStaleGo cutoff l st) := by
  intro l
  induction l with
  | nil => intro st h; exact h
  | cons q rest ih =>
    intro st h
    cases q with
    | mk k' e' =>
      show indexesClearedFor e (pruneStaleGo cutoff rest _)
      by_cases hts : cutoff ≤ e'.timestamp
      · rw [if_pos hts]
        exact ih st h
      · rw [if_neg hts]
        exact ih _ (indexesCleared_delete_mono e st k' e' h)

theorem indexesCleared_capEvictGo (e : OpenzaloMessageCacheEntry) :
    ∀ (fuel : Nat) (st : OpenzaloMessageCacheState),
      indexesClearedFor e st →
      indexesClearedFor e (capEvictGo fuel st) := by
  intro fuel
  induction fuel with
  | zero => intro st h; exact h
  | succ fuel ih =>
    intro st h
    show indexesClearedFor e
      (if st.cacheByKey.length ≤ CACHE_MAX then st else _)
    by_cases hmax : st.cacheByKey.length ≤ CACHE_MAX
    · rw [if_pos hmax]
      exact h
    · rw [if_neg hmax]
      cases hsk : st.cacheByKey with
      | nil => exact h
      | cons q tail =>
        cases q with
        | mk k0 e0 => exact ih _ (indexesCleared_delete_mono e st k0 e0 h)

theorem pruneStaleGo_clears_stale (cutoff : Int) (k : String)
    (e : OpenzaloMessageCacheEntry) (hstale : e.timestamp < cutoff) :
    ∀ (l : List (String × OpenzaloMessageCacheEntry))
      (st : OpenzaloMessageCacheState),
      (k, e) ∈ l →
      indexesClearedFor e (pruneStaleGo cutoff l st) := by
  intro l
  induction l with
  | nil => intro st h; simp at h
  | cons q rest ih =>
    intro st hmem
    cases q with
    | mk k' e' =>
      show indexesClearedFor e (pruneStaleGo cutoff rest _)
      rcases List.mem_cons.mp hmem with h1 | h1
      · have hk : k' = k := (Prod.mk.injEq _ _ _ _ |>.mp h1.symm).1
        have he : e' = e := (Prod.mk.injEq _ _ _ _ |>.mp h1.symm).2
        rw [hk, he, if_neg (not_le.mpr hstale)]
        exact indexesCleared_pruneStaleGo cutoff e rest _
          (deleteCacheEntry_clears_own k e st)
      · by_cases hts : cutoff ≤ e'.timestamp
        · rw [if_pos hts]
          exact ih st h1
        · rw [if_neg hts]
          exact ih _ h1

theorem capEvictGo_succ_eq (fuel : Nat) (s : OpenzaloMessageCacheState) :
    capEvictGo (fuel + 1) s =
      (if s.cacheByKey.length ≤ CACHE_MAX then s
      else
        match s.cacheByKey with
        | [] => s
        | (oldestKey, oldest) :: _ =>
          capEvictGo fuel (deleteCacheEntry oldestKey oldest s)) := rfl

theorem capEvictGo_clears_dropped (e : OpenzaloMessageCacheEntry)
    (k : String) :
    ∀ (fuel : Nat) (st : OpenzaloMessageCacheState),
      st.cacheByKey.length ≤ fuel →
      (st.cacheByKey.map Prod.fst).Nodup →
      (k, e) ∈ st.cacheByKey →
      (k, e) ∉ (capEvictGo fuel st).cacheByKey →
      indexesClearedFor e (capEvictGo fuel st) := by
  intro fuel
  induction fuel with
  | zero =>
    intro st hlen _ hmem _
    have : st.cacheByKey = [] := List.length_eq_zero.mp (by omega)
    rw [this] at hmem
    simp at hmem
  | succ fuel ih =>
    intro st hlen hnd hmem hout
    rw [capEvictGo_succ_eq] at hout ⊢
    by_cases hmax : st.cacheByKey.length ≤ CACHE_MAX
    · rw [if_pos hmax] at hout ⊢
      exact absurd hmem hout
    · rw [if_neg hmax] at hout ⊢
      cases hsk : st.cacheByKey with
      | nil => simp [hsk] at hmax
      | cons q tail =>
        cases q with
        | mk k0 e0 =>
          rw [hsk] at hout
          have hnotail : ∀ p ∈ tail, p.1 ≠ k0 := by
            intro p hp he
            rw [hsk] at hnd
            simp only [List.map_cons, List.nodup_cons] at hnd
            exact hnd.1 (he ▸ List.mem_map.mpr ⟨p, hp, rfl⟩)
          have hdel : (deleteCacheEntry k0 e0 st).cacheByKey = tail := by
            rw [deleteCacheEntry_cacheByKey, hsk]
            rw [mapDelete, if_pos rfl]
            exact mapDelete_eq_self tail k0 hnotail
          rw [hsk] at hmem
          rcases List.mem_cons.mp hmem with h1 | h1
          · have hk : k = k0 := (Prod.mk.injEq _ _ _ _ |>.mp h1).1
            have he : e = e0 := (Prod.mk.injEq _ _ _ _ |>.mp h1).2
            rw [he]
            exact indexesCleared_capEvictGo e0 fuel _
              (deleteCacheEntry_clears_own k0 e0 st)
          · apply ih (deleteCacheEntry k0 e0 st)
            · rw [hdel]
              rw [hsk] at hlen
              simp only [List.length_cons] at hlen
              omega
            · rw [hdel]
              rw [hsk] at hnd
              simp only [List.map_cons, List.nodup_cons] at hnd
              exact hnd.2
            · rw [hdel]
              exact h1
            · exact hout

theorem mapSet_mapDelete_length_le {A : Type} (l : List (String × A))
    (k : String) (v : A) :
    (mapSet (mapDelete l k) k v).length ≤ l.length + 1 :=
  le_trans (mapSet_length_le _ _ _)
    (Nat.add_le_add_right (mapDelete_length_le l k) 1)

/-- C8 (amended). For a well-formed cache state (no duplicate cache
keys), the lazy prune run by every cache operation at time now leaves
exactly the fresh entries (timestamp within six hours of now) minus an
oldest-first overflow: the surviving list is the fresh sublist with its
first (length minus 4000) entries dropped, hence every survivor is
fresh and at most 4000 entries remain, and every removed entry has its
shortId, msgId and cliMsgId index keys deleted. resolve and getLatest
leave exactly the pruned state, and a successful remember holds at most
4001 entries (the prune runs before the insertion, and the inserted
entry may carry an old caller-supplied timestamp). -/
theorem cache_prune_cap_and_index_invariants
    (s : OpenzaloMessageCacheState) (now : Int)
    (hnd : (s.cacheByKey.map Prod.fst).Nodup) :
    ((pruneExpired now s).cacheByKey =
      (s.cacheByKey.filter
        (fun p => decide (now - CACHE_TTL_MS ≤ p.2.timestamp))).drop
        ((s.cacheByKey.filter
          (fun p => decide (now - CACHE_TTL_MS ≤ p.2.timestamp))).length
          - CACHE_MAX)) ∧
    (∀ p ∈ (pruneExpired now s).cacheByKey,
      now - CACHE_TTL_MS ≤ p.2.timestamp) ∧
    ((pruneExpired now s).cacheByKey.length ≤ CACHE_MAX) ∧
    (∀ k e, (k, e) ∈ s.cacheByKey →
      (k, e) ∉ (pruneExpired now s).cacheByKey →
      indexesClearedFor e (pruneExpired now s)) ∧
    (∀ accountId rawId,
      (resolveOpenzaloMessageRef accountId rawId now s).2 =
        pruneExpired now s) ∧
    (∀ accountId threadId isGroup,
      (getLatestOpenzaloMessageForThread accountId threadId isGroup now
        s).2 = pruneExpired now s) ∧
    (∀ params e s2, rememberOpenzaloMessage params now s = (some e, s2) →
      s2.cacheByKey.length ≤ CACHE_MAX + 1) := by
  have hs1 := pruneStaleGo_cacheByKey (now - CACHE_TTL_MS) s.cacheByKey s
  have hiff : ∀ p ∈ s.cacheByKey,
      (decide (p.1 ∉ staleKeysOf (now - CACHE_TTL_MS) s.cacheByKey)) =
        (decide (now - CACHE_TTL_MS ≤ p.2.timestamp)) := by
    intro p hp
    rw [decide_eq_decide]
    constructor
    · intro hnot
      by_contra hlt
      apply hnot
      unfold staleKeysOf
      apply List.mem_map.mpr
      refine ⟨p, List.mem_filter.mpr ⟨hp, ?_⟩, rfl⟩
      simp
      omega
    · intro hle hmem
      unfold staleKeysOf at hmem
      obtain ⟨q, hq, hq1⟩ := List.mem_map.mp hmem
      have hql := List.mem_filter.mp hq
      have hqstale : q.2.timestamp < now - CACHE_TTL_MS := by
        have := hql.2
        simpa using this
      have hqmem : (p.1, q.2) ∈ s.cacheByKey := by
        have : q = (p.1, q.2) := by
          rw [← hq1]
        rw [← this]
        exact hql.1
      have hpmem : (p.1, p.2) ∈ s.cacheByKey := by
        rw [Prod.mk.eta]
        exact hp
      have := keys_nodup_unique s.cacheByKey hnd p.1 p.2 q.2 hpmem hqmem
      rw [← this] at hqstale
      omega
  have hconv := List.filter_congr hiff
  have hs1f : (pruneStaleGo (now - CACHE_TTL_MS) s.cacheByKey
      s).cacheByKey =
      s.cacheByKey.filter
        (fun p => decide (now - CACHE_TTL_MS ≤ p.2.timestamp)) :=
    hs1.trans hconv
  have hs1nd : ((pruneStaleGo (now - CACHE_TTL_MS) s.cacheByKey
      s).cacheByKey.map Prod.fst).Nodup := by
    rw [hs1f]
    exact hnd.sublist ((List.filter_sublist s.cacheByKey).map Prod.fst)
  have hpe : pruneExpired now s =
      capEvictGo ((pruneStaleGo (now - CACHE_TTL_MS) s.cacheByKey
        s).cacheByKey.length)
        (pruneStaleGo (now - CACHE_TTL_MS) s.cacheByKey s) := rfl
  have hmain : (pruneExpired now s).cacheByKey =
      (s.cacheByKey.filter
        (fun p => decide (now - CACHE_TTL_MS ≤ p.2.timestamp))).drop
        ((s.cacheByKey.filter
          (fun p => decide (now - CACHE_TTL_MS ≤ p.2.timestamp))).length
          - CACHE_MAX) := by
    rw [hpe]
    rw [capEvictGo_cacheByKey _ _ (le_refl _) hs1nd]
    rw [hs1f]
  refine ⟨hmain, ?_, ?_, ?_, fun a r => rfl, fun a t g => rfl, ?_⟩
  · intro p hp
    rw [hmain] at hp
    have hp2 := List.mem_filter.mp (List.drop_subset _ _ hp)
    simpa using hp2.2
  · rw [hmain, List.length_drop]
    omega
  · intro k e hmem hout
    by_cases hstale : e.timestamp < now - CACHE_TTL_MS
    · rw [hpe]
      apply indexesCleared_capEvictGo
      exact pruneStaleGo_clears_stale (now - CACHE_TTL_MS) k e hstale
        s.cacheByKey s hmem
    · have hmem1 : (k, e) ∈ (pruneStaleGo (now - CACHE_TTL_MS)
          s.cacheByKey s).cacheByKey := by
        rw [hs1f]
        apply List.mem_filter.mpr
        refine ⟨hmem, ?_⟩
        simp
        omega
      rw [hpe] at hout ⊢
      exact capEvictGo_clears_dropped e k _ _ (le_refl _) hs1nd hmem1
        hout
  · intro params e s2 h
    unfold rememberOpenzaloMessage at h
    dsimp only at h
    split at h
    · simp at h
    · rw [Prod.mk.injEq] at h
      obtain ⟨he, hs2⟩ := h
      have hlen1 : (pruneExpired now s).cacheByKey.length ≤ CACHE_MAX :=
        by
        rw [hmain, List.length_drop]
        omega
      rw [← hs2]
      exact le_trans (mapSet_mapDelete_length_le _ _ _)
        (Nat.add_le_add_right hlen1 1)

/-- Concrete stale cache entry for the C8 witness. -/
def sampleC8Entry1 : OpenzaloMessageCacheEntry :=
  { accountId := "a", threadId := "t", isGroup := false,
    msgId := some "m1", cliMsgId := some "c1", shortId := "1",
    timestamp := 5, preview := none }

/-- Concrete fresh cache entry for the C8 witness. -/
def sampleC8Entry2 : OpenzaloMessageCacheEntry :=
  { accountId := "a", threadId := "t", isGroup := false,
    msgId := some "m2", cliMsgId := some "c2", shortId := "2",
    timestamp := 29000000, preview := none }

/-- Concrete two-entry cache state with distinct cache keys. -/
def sampleC8State : OpenzaloMessageCacheState :=
  { cacheByKey := [("a:t:m1:c1", sampleC8Entry1),
      ("a:t:m2:c2", sampleC8Entry2)],
    cacheByMsgId := [("a:m1", "a:t:m1:c1"), ("a:m2", "a:t:m2:c2")],
    cacheByCliMsgId := [("a:c1", "a:t:m1:c1"), ("a:c2", "a:t:m2:c2")],
    cacheByShortId := [("a:1", "a:t:m1:c1"), ("a:2", "a:t:m2:c2")],
    latestByThread := [("a:dm:t", "a:t:m2:c2")],
    shortIdCounter := 2 }

/-- Witness: the C8 invariants instantiated at the concrete two-entry
state (one stale, one fresh entry) at time 30000000. -/
theorem cache_prune_cap_and_index_invariants_witness :
    ((sampleC8State.cacheByKey.map Prod.fst).Nodup) ∧
    (((pruneExpired 30000000 sampleC8State).cacheByKey =
      (sampleC8State.cacheByKey.filter
        (fun p => decide ((30000000 : Int) - CACHE_TTL_MS ≤
          p.2.timestamp))).drop
        ((sampleC8State.cacheByKey.filter
          (fun p => decide ((30000000 : Int) - CACHE_TTL_MS ≤
            p.2.timestamp))).length - CACHE_MAX)) ∧
    (∀ p ∈ (pruneExpired 30000000 sampleC8State).cacheByKey,
      (30000000 : Int) - CACHE_TTL_MS ≤ p.2.timestamp) ∧
    ((pruneExpired 30000000 sampleC8State).cacheByKey.length ≤
      CACHE_MAX) ∧
    (∀ k e, (k, e) ∈ sampleC8State.cacheByKey →
      (k, e) ∉ (pruneExpired 30000000 sampleC8State).cacheByKey →
      indexesClearedFor e (pruneExpired 30000000 sampleC8State)) ∧
    (∀ accountId rawId,
      (resolveOpenzaloMessageRef accountId rawId 30000000
        sampleC8State).2 = pruneExpired 30000000 sampleC8State) ∧
    (∀ accountId threadId isGroup,
      (getLatestOpenzaloMessageForThread accountId threadId isGroup
        30000000 sampleC8State).2 =
        pruneExpired 30000000 sampleC8State) ∧
    (∀ params e s2, rememberOpenzaloMessage params 30000000
        sampleC8State = (some e, s2) →
      s2.cacheByKey.length ≤ CACHE_MAX + 1)) :=
  ⟨by decide,
    cache_prune_cap_and_index_invariants sampleC8State 30000000
      (by decide)⟩

/-- One pending-group-history entry (actions.ts,
OpenzaloPendingGroupHistoryEntry). -/
structure OpenzaloPendingGroupHistoryEntry where
  sender : String
  body : String
  timestamp : Int
  messageId : Option String
  mediaPaths : List String
  mediaUrls : List String
  mediaTypes : List String
deriving DecidableEq, Repr

/-- Default per-key entry limit (actions.ts). -/
def DEFAULT_OPENZALO_PENDING_GROUP_HISTORY_LIMIT : Int := 10

/-- Default entry TTL: ten minutes (actions.ts). -/
def DEFAULT_OPENZALO_PENDING_GROUP_HISTORY_TTL_MS : Int := 10 * 60 * 1000

/-- Cap on the number of distinct history keys (actions.ts). -/
def MAX_OPENZALO_PENDING_GROUP_HISTORY_KEYS : Nat := 1000

/-- The pendingGroupHistories map: insertion-ordered key/list pairs. -/
abbrev PendingHistories :=
  List (String × List OpenzaloPendingGroupHistoryEntry)

/-- Helper for evictOldHistoryKeys: walk the first n keys of the map,
deleting each truthy (non-empty-string) key, as the JS loop does over
the live keys iterator. -/
def evictWipeGo : Nat → PendingHistories → PendingHistories
  | 0, m => m
  | _ + 1, [] => []
  | n + 1, (k, v) :: rest =>
    if k = "" then (k, v) :: evictWipeGo n rest else evictWipeGo n rest

/-- evictOldHistoryKeys (actions.ts): when the map exceeds maxKeys,
delete the first (size - maxKeys) keys in insertion order. -/
def evictOldHistoryKeys (maxKeys : Nat) (m : PendingHistories) :
    PendingHistories :=
  if m.length ≤ maxKeys then m else evictWipeGo (m.length - maxKeys) m

/-- pruneExpiredEntries (actions.ts): a non-positive ttl clears the
whole map; otherwise each key keeps only its entries whose timestamp is
within ttl of now, and a key whose filtered list is empty is deleted. -/
def pruneExpiredEntries (nowMs ttlMs : Int) (m : PendingHistories) :
    PendingHistories :=
  if ttlMs ≤ 0 then []
  else
    m.filterMap (fun p =>
      let freshEntries :=
        p.2.filter (fun e => decide (nowMs - e.timestamp ≤ ttlMs))
      if freshEntries.length = 0 then none else some (p.1, freshEntries))

/-- The `while (history.length > limit) history.shift()` loop: drop from
the front until the list length is at most limit. -/
def shiftWhileOver (limit : Int) :
    List OpenzaloPendingGroupHistoryEntry →
      List OpenzaloPendingGroupHistoryEntry
  | [] => []
  | e :: rest =>
    if limit < (((e :: rest).length : Nat) : Int) then
      shiftWhileOver limit rest
    else e :: rest

/-- appendOpenzaloPendingGroupHistoryEntry (actions.ts): prune, bail out
with [] when limit is non-positive, else push the entry onto the key's
list, shift down to limit, delete-then-set the key (moving it to the
end), evict old keys, and return the post-trim list. -/
def appendOpenzaloPendingGroupHistoryEntry (historyKey : String)
    (entry : OpenzaloPendingGroupHistoryEntry) (limit : Int)
    (nowMs ttlMs : Int) (m : PendingHistories) :
    List OpenzaloPendingGroupHistoryEntry × PendingHistories :=
  let m1 := pruneExpiredEntries nowMs ttlMs m
  if limit ≤ 0 then ([], m1)
  else
    let history :=
      shiftWhileOver limit (((mapGet m1 historyKey).getD []) ++ [entry])
    let m2 := mapSet (mapDelete m1 historyKey) historyKey history
    (history, evictOldHistoryKeys MAX_OPENZALO_PENDING_GROUP_HISTORY_KEYS
      m2)

/-- readOpenzaloPendingGroupHistoryEntries (actions.ts): prune, then
return (a copy of) the key's list, or [] when absent. -/
def readOpenzaloPendingGroupHistoryEntries (historyKey : String)
    (nowMs ttlMs : Int) (m : PendingHistories) :
    List OpenzaloPendingGroupHistoryEntry × PendingHistories :=
  let m1 := pruneExpiredEntries nowMs ttlMs m
  ((mapGet m1 historyKey).getD [], m1)

/-- clearOpenzaloPendingGroupHistory (actions.ts). -/
def clearOpenzaloPendingGroupHistory (historyKey : String)
    (m : PendingHistories) : PendingHistories :=
  mapDelete m historyKey

/-- Iterated append of a list of entries under one history key,
threading the map state. -/
def appendAllPendingHistory (historyKey : String)
    (limit nowMs ttlMs : Int)
    (es : List OpenzaloPendingGroupHistoryEntry) (m : PendingHistories) :
    PendingHistories :=
  es.foldl
    (fun acc e =>
      (appendOpenzaloPendingGroupHistoryEntry historyKey e limit nowMs
        ttlMs acc).2) m

theorem shiftWhileOver_eq_drop (limit : Int) (hL : 0 < limit) :
    ∀ l : List OpenzaloPendingGroupHistoryEntry,
      shiftWhileOver limit l = l.drop (l.length - limit.toNat)
  | [] => by simp [shiftWhileOver]
  | e :: rest => by
    unfold shiftWhileOver
    by_cases hlt : limit < (((e :: rest).length : Nat) : Int)
    · rw [if_pos hlt, shiftWhileOver_eq_drop limit hL rest]
      have h1 : (e :: rest).length - limit.toNat =
          (rest.length - limit.toNat) + 1 := by
        simp only [List.length_cons] at hlt ⊢
        omega
      rw [h1, List.drop_succ_cons]
    · rw [if_neg hlt]
      have h0 : (e :: rest).length - limit.toNat = 0 := by
        simp only [List.length_cons] at hlt ⊢
        omega
      rw [h0, List.drop_zero]

theorem pruneEntries_nil (nowMs ttlMs : Int) (httl : 0 < ttlMs) :
    pruneExpiredEntries nowMs ttlMs [] = [] := by
  unfold pruneExpiredEntries
  rw [if_neg (by omega : ¬ ttlMs ≤ 0)]
  rfl

theorem pruneEntries_singleton_fresh (nowMs ttlMs : Int) (key : String)
    (hist : List OpenzaloPendingGroupHistoryEntry) (httl : 0 < ttlMs)
    (hne : hist ≠ [])
    (hfresh : ∀ x ∈ hist, nowMs - x.timestamp ≤ ttlMs) :
    pruneExpiredEntries nowMs ttlMs [(key, hist)] = [(key, hist)] := by
  have hfe : hist.filter
      (fun e => decide (nowMs - e.timestamp ≤ ttlMs)) = hist :=
    List.filter_eq_self.mpr (fun a ha => by simpa using hfresh a ha)
  unfold pruneExpiredEntries
  rw [if_neg (by omega : ¬ ttlMs ≤ 0)]
  rw [List.filterMap_cons]
  dsimp only
  rw [hfe]
  rw [if_neg (fun h0 => hne (List.length_eq_zero.mp h0))]
  rfl

theorem append_step_empty (key : String)
    (e : OpenzaloPendingGroupHistoryEntry) (limit nowMs ttlMs : Int)
    (hL : 0 < limit) (httl : 0 < ttlMs) :
    appendOpenzaloPendingGroupHistoryEntry key e limit nowMs ttlMs [] =
      ([e], [(key, [e])]) := by
  unfold appendOpenzaloPendingGroupHistoryEntry
  dsimp only
  rw [pruneEntries_nil nowMs ttlMs httl]
  rw [if_neg (by omega : ¬ limit ≤ 0)]
  have hsh : shiftWhileOver limit
      ((mapGet ([] : PendingHistories) key).getD [] ++ [e]) = [e] := by
    rw [shiftWhileOver_eq_drop limit hL]
    show [e].drop (1 - limit.toNat) = [e]
    rw [show (1 : Nat) - limit.toNat = 0 from by omega, List.drop_zero]
  rw [hsh]
  rfl

theorem append_step_singleton (key : String)
    (e : OpenzaloPendingGroupHistoryEntry) (limit nowMs ttlMs : Int)
    (hist : List OpenzaloPendingGroupHistoryEntry)
    (hL : 0 < limit) (httl : 0 < ttlMs) (hne : hist ≠ [])
    (hfresh : ∀ x ∈ hist, nowMs - x.timestamp ≤ ttlMs) :
    appendOpenzaloPendingGroupHistoryEntry key e limit nowMs ttlMs
        [(key, hist)] =
      (shiftWhileOver limit (hist ++ [e]),
        [(key, shiftWhileOver limit (hist ++ [e]))]) := by
  unfold appendOpenzaloPendingGroupHistoryEntry
  dsimp only
  rw [pruneEntries_singleton_fresh nowMs ttlMs key hist httl hne hfresh]
  rw [if_neg (by omega : ¬ limit ≤ 0)]
  have hget : (mapGet [(key, hist)] key).getD [] = hist := by
    simp [mapGet]
  rw [hget]
  have hdel : mapDelete [(key, hist)] key = [] := by
    simp [mapDelete]
  rw [hdel]
  rfl

theorem shift_drop_concat (limit : Int) (hL : 0 < limit)
    (l : List OpenzaloPendingGroupHistoryEntry)
    (e : OpenzaloPendingGroupHistoryEntry) :
    shiftWhileOver limit (l.drop (l.length - limit.toNat) ++ [e]) =
      (l ++ [e]).drop ((l ++ [e]).length - limit.toNat) := by
  rw [shiftWhileOver_eq_drop limit hL]
  rw [show l.drop (l.length - limit.toNat) ++ [e] =
      (l ++ [e]).drop (l.length - limit.toNat) from
    (List.drop_append_of_le_length (by omega)).symm]
  rw [List.drop_drop]
  congr 1
  rw [List.length_drop, List.length_append]
  simp only [List.length_singleton]
  omega

theorem appendAll_pair (key : String) (limit nowMs ttlMs : Int)
    (hL : 0 < limit) (httl : 0 < ttlMs) :
    ∀ (es : List OpenzaloPendingGroupHistoryEntry)
      (e : OpenzaloPendingGroupHistoryEntry),
      (∀ x ∈ es ++ [e], nowMs - x.timestamp ≤ ttlMs) →
      appendOpenzaloPendingGroupHistoryEntry key e limit nowMs ttlMs
          (appendAllPendingHistory key limit nowMs ttlMs es []) =
        ((es ++ [e]).drop ((es ++ [e]).length - limit.toNat),
          [(key, (es ++ [e]).drop ((es ++ [e]).length - limit.toNat))]) :=
  by
  intro es
  induction es using List.reverseRecOn with
  | nil =>
    intro e hfresh
    rw [show appendAllPendingHistory key limit nowMs ttlMs [] [] =
        ([] : PendingHistories) from rfl]
    rw [append_step_empty key e limit nowMs ttlMs hL httl]
    have hD : (([] : List OpenzaloPendingGroupHistoryEntry) ++
        [e]).drop ((([] : List OpenzaloPendingGroupHistoryEntry) ++
          [e]).length - limit.toNat) = [e] := by
      simp only [List.nil_append, List.length_singleton]
      rw [show (1 : Nat) - limit.toNat = 0 from by omega, List.drop_zero]
    rw [hD]
  | append_singleton es' e' ih =>
    intro e hfresh
    have hfresh' : ∀ x ∈ es' ++ [e'], nowMs - x.timestamp ≤ ttlMs :=
      fun x hx => hfresh x (List.mem_append_left _ hx)
    have hstate : appendAllPendingHistory key limit nowMs ttlMs
        (es' ++ [e']) [] =
        [(key, (es' ++ [e']).drop
          ((es' ++ [e']).length - limit.toNat))] := by
      have hfold : appendAllPendingHistory key limit nowMs ttlMs
          (es' ++ [e']) [] =
          (appendOpenzaloPendingGroupHistoryEntry key e' limit nowMs
            ttlMs (appendAllPendingHistory key limit nowMs ttlMs es'
              [])).2 := by
        unfold appendAllPendingHistory
        rw [List.foldl_append]
        rfl
      rw [hfold, ih e' hfresh']
    rw [hstate]
    have hne : (es' ++ [e']).drop
        ((es' ++ [e']).length - limit.toNat) ≠ [] := by
      intro h
      have hlen := congrArg List.length h
      rw [List.length_drop] at hlen
      simp only [List.length_nil, List.length_append,
        List.length_singleton] at hlen
      omega
    have hfreshD : ∀ x ∈ (es' ++ [e']).drop
        ((es' ++ [e']).length - limit.toNat),
        nowMs - x.timestamp ≤ ttlMs :=
      fun x hx => hfresh' x (List.mem_of_mem_drop hx)
    rw [append_step_singleton key e limit nowMs ttlMs _ hL httl hne
      hfreshD]
    rw [shift_drop_concat limit hL (es' ++ [e']) e]

/-- C9. For every history key, a non-positive-free run of appends of
the entries es ++ [e] under a fixed positive limit and positive ttl,
with every entry fresh at the shared clock value, leaves the key
holding exactly the last limit-many appended entries in their original
relative order (the drop of all but the final min count), the final
append call returns precisely that post-trim list, and its length never
exceeds the limit. -/
theorem pending_history_append_keeps_last_limit (key : String)
    (limit nowMs ttlMs : Int)
    (es : List OpenzaloPendingGroupHistoryEntry)
    (e : OpenzaloPendingGroupHistoryEntry)
    (hL : 0 < limit) (httl : 0 < ttlMs)
    (hfresh : ∀ x ∈ es ++ [e], nowMs - x.timestamp ≤ ttlMs) :
    mapGet (appendAllPendingHistory key limit nowMs ttlMs (es ++ [e])
        []) key =
      some ((es ++ [e]).drop ((es ++ [e]).length - limit.toNat)) ∧
    (appendOpenzaloPendingGroupHistoryEntry key e limit nowMs ttlMs
        (appendAllPendingHistory key limit nowMs ttlMs es [])).1 =
      (es ++ [e]).drop ((es ++ [e]).length - limit.toNat) ∧
    ((es ++ [e]).drop ((es ++ [e]).length - limit.toNat)).length ≤
      limit.toNat := by
  have hpair := appendAll_pair key limit nowMs ttlMs hL httl es e hfresh
  refine ⟨?_, ?_, ?_⟩
  · have hfold : appendAllPendingHistory key limit nowMs ttlMs
        (es ++ [e]) [] =
        (appendOpenzaloPendingGroupHistoryEntry key e limit nowMs ttlMs
          (appendAllPendingHistory key limit nowMs ttlMs es [])).2 := by
      unfold appendAllPendingHistory
      rw [List.foldl_append]
      rfl
    rw [hfold, hpair]
    simp [mapGet]
  · rw [hpair]
  · rw [List.length_drop]
    omega

/-- Concrete pending-history entry for the C9 witness. -/
def sampleHistEntry (n : Int) (b : String) :
    OpenzaloPendingGroupHistoryEntry :=
  { sender := "u", body := b, timestamp := n, messageId := none,
    mediaPaths := [], mediaUrls := [], mediaTypes := [] }

/-- The first two of the three appended entries in the C9 witness. -/
def sampleHistEs : List OpenzaloPendingGroupHistoryEntry :=
  [sampleHistEntry 100 "one", sampleHistEntry 200 "two"]

/-- The third appended entry in the C9 witness. -/
def sampleHistE3 : OpenzaloPendingGroupHistoryEntry :=
  sampleHistEntry 300 "three"

/-- Witness: appending three fresh entries with limit 2 retains only
the last two, in order, and the final append returns that list. -/
theorem pending_history_append_keeps_last_limit_witness :
    ((0 : Int) < 2 ∧ (0 : Int) < 600000 ∧
      (∀ x ∈ sampleHistEs ++ [sampleHistE3],
        (1000 : Int) - x.timestamp ≤ 600000)) ∧
    (mapGet (appendAllPendingHistory "acc:123" 2 1000 600000
        (sampleHistEs ++ [sampleHistE3]) []) "acc:123" =
      some ((sampleHistEs ++ [sampleHistE3]).drop
        ((sampleHistEs ++ [sampleHistE3]).length - (2 : Int).toNat)) ∧
    (appendOpenzaloPendingGroupHistoryEntry "acc:123" sampleHistE3 2
        1000 600000 (appendAllPendingHistory "acc:123" 2 1000 600000
          sampleHistEs [])).1 =
      (sampleHistEs ++ [sampleHistE3]).drop
        ((sampleHistEs ++ [sampleHistE3]).length - (2 : Int).toNat) ∧
    ((sampleHistEs ++ [sampleHistE3]).drop
        ((sampleHistEs ++ [sampleHistE3]).length -
          (2 : Int).toNat)).length ≤ (2 : Int).toNat) :=
  ⟨⟨by decide, by decide, by decide⟩,
    pending_history_append_keeps_last_limit "acc:123" 2 1000 600000
      sampleHistEs sampleHistE3 (by decide) (by decide) (by decide)⟩

end Openzalo